import Mathlib

/-
  Verification of the request-coalescing / idempotent long-poll gateway of the
  Factorchain repository.

  The definitions below are a shallow embedding of the gateway code in
  src/SmartContracts_and_Adapters/services_functions_multicall_aware/vlei-service/vlei-adapter-public.ts
  (the canonical-JSON fingerprint `stableStringify`/`hashReq`, the waiter
  registry `waiters`/`flushWaiters`/`addWaiter`, the verify and webhook
  handlers) and of the idempotency wrapper `__idemWrap` of
  src/SmartContracts_and_Adapters/services_functions_multicall_aware/iso20022-service/server.js
  (whose `__stableStringify`/`__hashKey` are textually the same algorithm as
  `stableStringify`/`hashReq`).

  Modelling conventions:
  * JSON values are the inductive `J` (mutual with `JList`/`JEntries` so that
    all functions are structural and kernel-reducible).  JSON numbers are
    modelled as integers (every payload in the modelled flows is integral).
  * JavaScript's single-threaded event loop makes each handler body between
    `await` points atomic; handlers are therefore state transformers on the
    module-level maps, and timer callbacks (`setTimeout`) are separate atomic
    events (`timeoutFire`).  The `await axios.post` outcome inside the verify
    handler is passed in as an explicit `Except` value.
  * `Map` objects are association lists; `Map.set`/`delete` are `alSet`/
    `alErase`.  Iteration order of the maps is only used by logging, which is
    not modelled (nor are the `metrics` counters).
  * An Express `Response` sink is identified by a `Nat`.  `res.json` after a
    response has been sent never delivers a second response to the client, so
    the `sent` log records at most one response per sink, exactly as the
    source's `safeJson` guard (`res.headersSent`) enforces.
  * `crypto.createHash("sha256")` is modelled by the SHA-256 algorithm itself,
    translated below; `Buffer`/UTF-8 encoding by `strBytes`.
-/

set_option maxRecDepth 8000

/- ================= JSON values ================= -/

mutual
inductive J where
  | null : J
  | bool (b : Bool) : J
  | num (n : Int) : J
  | str (s : String) : J
  | arr (xs : JList) : J
  | obj (es : JEntries) : J
inductive JList where
  | nil : JList
  | cons (hd : J) (tl : JList) : JList
inductive JEntries where
  | nil : JEntries
  | cons (k : String) (v : J) (tl : JEntries) : JEntries
end

/- Size measure used for strong induction over the mutual JSON type. -/
mutual
def jsize : J → Nat
  | .null => 1
  | .bool _ => 1
  | .num _ => 1
  | .str _ => 1
  | .arr xs => 1 + jsizeL xs
  | .obj es => 1 + jsizeE es
def jsizeL : JList → Nat
  | .nil => 1
  | .cons x xs => 1 + jsize x + jsizeL xs
def jsizeE : JEntries → Nat
  | .nil => 1
  | .cons _ v es => 1 + jsize v + jsizeE es
end

/-- Build `JEntries` from a list literal (notation helper for statements). -/
def ofListE : List (String × J) → JEntries
  | [] => .nil
  | p :: rest => .cons p.1 p.2 (ofListE rest)

/-- JSON object from a key/value list. -/
def jobj (l : List (String × J)) : J := .obj (ofListE l)

/-- First entry with the given key, as JavaScript property lookup. -/
def entGet : JEntries → String → Option J
  | .nil, _ => none
  | .cons k v tl, k2 => if k = k2 then some v else entGet tl k2

/-- JavaScript property access `body[k]` on a parsed JSON body; `none` is
`undefined` (also for non-object bodies). -/
def jGet (j : J) (k : String) : Option J :=
  match j with
  | .obj es => entGet es k
  | _ => none

/-- JavaScript truthiness of a possibly-absent value (`undefined` is falsy). -/
def jTruthy : Option J → Bool
  | none => false
  | some .null => false
  | some (.bool b) => b
  | some (.num n) => decide (n ≠ 0)
  | some (.str s) => decide (s ≠ "")
  | some (.arr _) => true
  | some (.obj _) => true

/- JavaScript `String(x)` coercion.  Arrays join their elements with commas
(`Array.prototype.toString`; the JS quirk that a `null` element prints as the
empty string is not reproduced — the modelled flows coerce strings only);
plain objects print as `[object Object]`. -/
mutual
def jsString : J → String
  | .null => "null"
  | .bool true => "true"
  | .bool false => "false"
  | .num n => toString n
  | .str s => s
  | .arr xs => jsStringL xs
  | .obj _ => "[object Object]"
def jsStringL : JList → String
  | .nil => ""
  | .cons x .nil => jsString x
  | .cons x (.cons y tl) => jsString x ++ "," ++ jsStringL (.cons y tl)
end

/-- Model of `String.prototype.trim()`: strip ASCII
whitespace (space and U+0009–U+000D) from both ends. -/
def isWSChar (c : Char) : Bool := c.toNat = 32 || (9 ≤ c.toNat && c.toNat ≤ 13)

def trimStr (s : String) : String :=
  String.mk (((s.data.dropWhile isWSChar).reverse.dropWhile isWSChar).reverse)

/- ================= stableStringify ================= -/

/-- One character of `JSON.stringify` string escaping. -/
def hexDigit (n : Nat) : Char := if n < 10 then Char.ofNat (48 + n) else Char.ofNat (87 + n)

def jsonEscapeChar (c : Char) : String :=
  if c = '"' then "\\\""
  else if c = '\\' then "\\\\"
  else if c.toNat = 8 then "\\b"
  else if c.toNat = 9 then "\\t"
  else if c.toNat = 10 then "\\n"
  else if c.toNat = 12 then "\\f"
  else if c.toNat = 13 then "\\r"
  else if c.toNat < 32 then "\\u00" ++ String.mk [hexDigit (c.toNat / 16), hexDigit (c.toNat % 16)]
  else String.mk [c]

/-- Serialization of a string as `JSON.stringify` produces it. -/
def jsonQuote (s : String) : String := "\"" ++ String.join (s.data.map jsonEscapeChar) ++ "\""

/-- Lexicographic comparison of character lists by code point; this is the
default `Array.prototype.sort()` string order (they agree on all keys in the
basic multilingual plane, which covers every key in the modelled payloads). -/
def charListLe : List Char → List Char → Bool
  | [], _ => true
  | _ :: _, [] => false
  | a :: as, b :: bs =>
    if a.toNat < b.toNat then true
    else if b.toNat < a.toNat then false
    else charListLe as bs

def strLeB (a b : String) : Bool := charListLe a.data b.data

/-- Insert a serialized entry into a key-sorted list (stable). -/
def insertPair (p : String × String) : List (String × String) → List (String × String)
  | [] => [p]
  | q :: rest => if strLeB p.1 q.1 then p :: q :: rest else q :: insertPair p rest

/-- Key-sort of serialized entries (insertion sort, stable). -/
def sortPairs : List (String × String) → List (String × String)
  | [] => []
  | p :: rest => insertPair p (sortPairs rest)

def entryStr (p : String × String) : String := jsonQuote p.1 ++ ":" ++ p.2

def joinComma : List String → String
  | [] => ""
  | [s] => s
  | s :: t :: rest => s ++ "," ++ joinComma (t :: rest)

/- `stableStringify` of vlei-adapter-public.ts (line-for-line the same
function as `__stableStringify` of iso20022-service/server.js):
`null`/scalars serialize directly, arrays element-wise in order, objects with
keys sorted.  The source sorts `Object.keys(x)` and then serializes `x[k]`
for each key; since JavaScript object keys are unique, that is the same
string as serializing each entry and sorting the (key, serialized-value)
pairs by key, which is the structurally recursive form used here. -/
mutual
def stableStringify : J → String
  | .null => "null"
  | .bool true => "true"
  | .bool false => "false"
  | .num n => toString n
  | .str s => jsonQuote s
  | .arr xs => "[" ++ ssList xs ++ "]"
  | .obj es => "\x7b" ++ joinComma ((sortPairs (ssEntries es)).map entryStr) ++ "\x7d"
def ssList : JList → String
  | .nil => ""
  | .cons x .nil => stableStringify x
  | .cons x (.cons y tl) => stableStringify x ++ "," ++ ssList (.cons y tl)
def ssEntries : JEntries → List (String × String)
  | .nil => []
  | .cons k v tl => (k, stableStringify v) :: ssEntries tl
end

/- ================= key-order canonicalization ================= -/

/-- Insert an entry into key-sorted entries (stable). -/
def insertEntry (k : String) (v : J) : JEntries → JEntries
  | .nil => .cons k v .nil
  | .cons k2 v2 tl =>
    if strLeB k k2 then .cons k v (.cons k2 v2 tl) else .cons k2 v2 (insertEntry k v tl)

def sortEntries : JEntries → JEntries
  | .nil => .nil
  | .cons k v tl => insertEntry k v (sortEntries tl)

/- Recursively key-sort every object.  Two JSON values are "structurally
equal up to object key order at any nesting depth" exactly when their
canonicalizations are equal. -/
mutual
def canonJ : J → J
  | .null => .null
  | .bool b => .bool b
  | .num n => .num n
  | .str s => .str s
  | .arr xs => .arr (canonL xs)
  | .obj es => .obj (sortEntries (canonE es))
def canonL : JList → JList
  | .nil => .nil
  | .cons x xs => .cons (canonJ x) (canonL xs)
def canonE : JEntries → JEntries
  | .nil => .nil
  | .cons k v es => .cons k (canonJ v) (canonE es)
end

/-- Key not bound in the entries. -/
def keyNotIn (k : String) : JEntries → Bool
  | .nil => true
  | .cons k2 _ tl => if k = k2 then false else keyNotIn k tl

/-- Object keys pairwise distinct (JavaScript objects cannot bind a key
twice, so every parsed JSON body satisfies this). -/
def nodupKeys : JEntries → Bool
  | .nil => true
  | .cons k _ tl => keyNotIn k tl && nodupKeys tl

/- Well-formed JSON value: object keys are duplicate-free at every depth. -/
mutual
def jWF : J → Bool
  | .null => true
  | .bool _ => true
  | .num _ => true
  | .str _ => true
  | .arr xs => jWFL xs
  | .obj es => nodupKeys es && jWFE es
def jWFL : JList → Bool
  | .nil => true
  | .cons x xs => jWF x && jWFL xs
def jWFE : JEntries → Bool
  | .nil => true
  | .cons _ v tl => jWF v && jWFE tl
end

/- ================= SHA-256 (crypto.createHash("sha256")) ================= -/

def w32 (x : Nat) : Nat := x % 4294967296
def rotr32 (n x : Nat) : Nat := w32 ((x >>> n) ||| (x <<< (32 - n)))
def shaS0 (x : Nat) : Nat := rotr32 7 x ^^^ rotr32 18 x ^^^ (x >>> 3)
def shaS1 (x : Nat) : Nat := rotr32 17 x ^^^ rotr32 19 x ^^^ (x >>> 10)
def shaE0 (x : Nat) : Nat := rotr32 2 x ^^^ rotr32 13 x ^^^ rotr32 22 x
def shaE1 (x : Nat) : Nat := rotr32 6 x ^^^ rotr32 11 x ^^^ rotr32 25 x

def shaK : List Nat :=
  [1116352408, 1899447441, 3049323471, 3921009573, 961987163, 1508970993,
   2453635748, 2870763221, 3624381080, 310598401, 607225278, 1426881987,
   1925078388, 2162078206, 2614888103, 3248222580, 3835390401, 4022224774,
   264347078, 604807628, 770255983, 1249150122, 1555081692, 1996064986,
   2554220882, 2821834349, 2952996808, 3210313671, 3336571891, 3584528711,
   113926993, 338241895, 666307205, 773529912, 1294757372, 1396182291,
   1695183700, 1986661051, 2177026350, 2456956037, 2730485921, 2820302411,
   3259730800, 3345764771, 3516065817, 3600352804, 4094571909, 275423344,
   430227734, 506948616, 659060556, 883997877, 958139571, 1322822218,
   1537002063, 1747873779, 1955562222, 2024104815, 2227730452, 2361852424,
   2428436474, 2756734187, 3204031479, 3329325298]

def shaH0 : List Nat :=
  [1779033703, 3144134277, 1013904242, 2773480762, 1359893119, 2600822924,
   528734635, 1541459225]

def be64 (n : Nat) : List Nat :=
  [(n >>> 56) % 256, (n >>> 48) % 256, (n >>> 40) % 256, (n >>> 32) % 256,
   (n >>> 24) % 256, (n >>> 16) % 256, (n >>> 8) % 256, n % 256]

def padBytes (msg : List Nat) : List Nat :=
  let len := msg.length
  let padLen := (55 + 64 - (len % 64)) % 64
  msg ++ [0x80] ++ List.replicate padLen 0 ++ be64 (8 * len)

def chunk64 : Nat → List Nat → List (List Nat)
  | 0, _ => []
  | _, [] => []
  | fuel+1, bs => bs.take 64 :: chunk64 fuel (bs.drop 64)

def beWords : List Nat → List Nat
  | a :: b :: c :: d :: rest => ((a <<< 24) ||| (b <<< 16) ||| (c <<< 8) ||| d) :: beWords rest
  | _ => []

def stepW (w : List Nat) : List Nat :=
  let i := w.length
  w ++ [w32 (shaS1 (w.getD (i-2) 0) + w.getD (i-7) 0 + shaS0 (w.getD (i-15) 0) + w.getD (i-16) 0)]

def extendW : Nat → List Nat → List Nat
  | 0, w => w
  | n+1, w => extendW n (stepW w)

def compressRound (hs : List Nat) (kw : Nat × Nat) : List Nat :=
  match hs with
  | [a, b, c, d, e, f, g, h] =>
    let ch := (e &&& f) ^^^ ((4294967295 ^^^ e) &&& g)
    let maj := (a &&& b) ^^^ (a &&& c) ^^^ (b &&& c)
    let t1 := w32 (h + shaE1 e + ch + kw.1 + kw.2)
    let t2 := w32 (shaE0 a + maj)
    [w32 (t1 + t2), a, b, c, w32 (d + t1), e, f, g]
  | _ => hs

def compressBlock (hs : List Nat) (block : List Nat) : List Nat :=
  let w := extendW 48 (beWords block)
  let out := (shaK.zip w).foldl compressRound hs
  (hs.zip out).map (fun p => w32 (p.1 + p.2))

def sha256Words (msg : List Nat) : List Nat :=
  let padded := padBytes msg
  (chunk64 padded.length padded).foldl compressBlock shaH0

def toHex8 (x : Nat) : String :=
  String.mk ((List.range 8).map (fun i => hexDigit ((x >>> (28 - 4 * i)) &&& 15)))

/-- Lowercase hex SHA-256 digest of a byte sequence. -/
def sha256Hex (msg : List Nat) : String := String.join ((sha256Words msg).map toHex8)

/-- UTF-8 bytes of a code point. -/
def utf8Bytes (c : Nat) : List Nat :=
  if c < 128 then [c]
  else if c < 2048 then [192 + c / 64, 128 + c % 64]
  else if c < 65536 then [224 + c / 4096, 128 + (c / 64) % 64, 128 + c % 64]
  else [240 + c / 262144, 128 + (c / 4096) % 64, 128 + (c / 64) % 64, 128 + c % 64]

def strBytes (s : String) : List Nat := (s.data.map (fun c => utf8Bytes c.toNat)).flatten

/-- The fingerprint `hashReq` of vlei-adapter-public.ts: sha256 over
`req.method + " " + req.path + "\n" + stableStringify(req.body)` (with an
empty-object default for a missing body).
`__hashKey` of iso20022-service/server.js is the same computation. -/
def hashReq (method path : String) (body : J) : String :=
  sha256Hex (strBytes (method ++ " " ++ path ++ "\n" ++ stableStringify body))

/- ================= gateway state (vlei-adapter-public.ts) ================= -/

/-- Association-list lookup, modelling `Map.get`. -/
def alGet {κ α : Type} [DecidableEq κ] (m : List (κ × α)) (k : κ) : Option α :=
  (m.find? (fun p => p.1 = k)).map Prod.snd

/-- Model of `Map.set` (insertion order of the map is irrelevant here). -/
def alSet {κ α : Type} [DecidableEq κ] (m : List (κ × α)) (k : κ) (v : α) : List (κ × α) :=
  (k, v) :: m.filter (fun p => p.1 ≠ k)

/-- Model of `Map.delete`. -/
def alErase {κ α : Type} [DecidableEq κ] (m : List (κ × α)) (k : κ) : List (κ × α) :=
  m.filter (fun p => p.1 ≠ k)

/-- Record status: `"pending" | "verified" | "rejected"`. -/
inductive Status where
  | pending | verified | rejected
deriving DecidableEq

def statusStr : Status → String
  | .pending => "pending"
  | .verified => "verified"
  | .rejected => "rejected"

/-- The record type `Rec` of vlei-adapter-public.ts (`status`, optional `lei`, `validTo`,
`raw`, `ts`, optional `rejectReason`). -/
structure Rec where
  status : Status
  lei : Option String := none
  validTo : Option String := none
  raw : Option J := none
  ts : Nat
  rejectReason : Option String := none

inductive WMode where
  | submit | verify
deriving DecidableEq

/-- The registry entry `Waiter` (the response sink `res` is a `Nat` identity; the `timer` handle
is represented by the separate `timeoutFire` event). -/
structure Waiter where
  res : Nat
  started : Nat
  mode : WMode
  expectedLEI : Option String := none

/-- A serialized HTTP response: status code, body (`jsonB` for `res.json(x)`,
`rawB` for `res.send(string)`), and the `X-Idempotency-Key` header if set. -/
inductive RBody where
  | jsonB (j : J)
  | rawB (s : String)

structure Resp where
  code : Nat
  body : RBody
  idemKey : Option String := none

/-- Cached webhook/idempotency response: serialized body bytes and expiry. -/
structure CacheEntry where
  bodyStr : String
  exp : Nat

/-- The module-level mutable maps of vlei-adapter-public.ts, plus the log of
responses delivered to each sink (at most one per sink). -/
structure VState where
  vlei : List (String × Rec) := []
  waiters : List (String × List Waiter) := []
  verifySeen : List (String × Nat) := []
  __postCache : List (String × CacheEntry) := []
  __postLocks : List (String × Nat) := []
  sent : List (Nat × Resp) := []

def IDEM_TTL_MS : Nat := 5000
def SUBMIT_TIMEOUT_MS : Nat := 120000

/-- The guard `safeJson`: respond only if no response has been sent on this sink. -/
def safeJson (st : VState) (r : Nat) (resp : Resp) : VState :=
  if (alGet st.sent r).isSome then st else { st with sent := (r, resp) :: st.sent }

/-- Serialized JSON fields of a `Rec` (a field whose value is `undefined` is
dropped by `res.json`, hence the optional segments). -/
def optField (k : String) (v : Option J) : List (String × J) :=
  match v with
  | none => []
  | some j => [(k, j)]

def recFields (r : Rec) : List (String × J) :=
  ("status", .str (statusStr r.status)) ::
    optField "lei" (r.lei.map .str) ++ optField "validTo" (r.validTo.map .str) ++
    optField "raw" r.raw ++ [("ts", .num r.ts)] ++
    optField "rejectReason" (r.rejectReason.map .str)

/-- The check `!s.lei || String(s.lei) !== String(w.expectedLEI)`: the stored `lei` is
falsy (absent or empty) or differs from the waiter's expectation. -/
def leiMismatch (lei : Option String) (e : String) : Bool :=
  match lei with
  | none => true
  | some l => if l = "" then true else decide (l ≠ e)

/-- The per-waiter record computed inside the `flushWaiters` loop: downgraded
to rejected iff the waiter is in verify mode, the shared record is verified,
the waiter registered a (truthy) `expectedLEI`, and the stored value does not
match it. -/
def flushRec (s : Rec) (w : Waiter) : Rec :=
  match w.expectedLEI with
  | none => s
  | some e =>
    if w.mode = .verify ∧ s.status = .verified ∧ e ≠ "" then
      if leiMismatch s.lei e then
        { s with status := .rejected, rejectReason := some "expected_lei_mismatch" }
      else s
    else s

/-- Body of the response a waiter receives at flush:
`{ ok: true, presentationId: id, ...out }` with `out = { ...s or downgraded, waitedMs }`. -/
def flushBody (now : Nat) (id : String) (s : Rec) (w : Waiter) : J :=
  jobj ([("ok", .bool true), ("presentationId", .str id)] ++
        recFields (flushRec s w) ++ [("waitedMs", .num (now - w.started))])

def flushResp (now : Nat) (id : String) (s : Rec) (w : Waiter) : Resp :=
  { code := 200, body := .jsonB (flushBody now id s w) }

/-- The flush `flushWaiters(id, s)`: delete the whole waiter list for `id` first, then
answer each detached waiter through `safeJson`. -/
def flushWaiters (now : Nat) (id : String) (s : Rec) (st : VState) : VState :=
  match alGet st.waiters id with
  | none => st
  | some list =>
    if list.isEmpty then st
    else
      (list.foldl (fun acc w => safeJson acc w.res (flushResp now id s w))
        { st with waiters := alErase st.waiters id })

/-- Registration `addWaiter(id, res, mode, expectedLEI)`: append the waiter, then flush
immediately if the stored record is already terminal.  (The timeout timer the
source arms here is the separate `timeoutFire` event.) -/
def addWaiter (now : Nat) (id : String) (r : Nat) (mode : WMode)
    (expectedLEI : Option String) (st : VState) : VState :=
  let list := (alGet st.waiters id).getD []
  let st1 := { st with
    waiters := alSet st.waiters id (list ++ [{ res := r, started := now, mode := mode,
                                               expectedLEI := expectedLEI }]) }
  match alGet st1.vlei id with
  | some curr => if curr.status ≠ .pending then flushWaiters now id curr st1 else st1
  | none => st1

/-- Body of the timeout response:
`{ ok: true, presentationId: id, ...(s as object), timeout: true, waitedMs }`. -/
def timeoutBody (id : String) (s : Rec) (waitedMs : Nat) : J :=
  jobj ([("ok", .bool true), ("presentationId", .str id)] ++ recFields s ++
        [("timeout", .bool true), ("waitedMs", .num waitedMs)])

/-- The timeout response `{ ok, presentationId, ...(s as object), timeout: true, waitedMs }`
built from the best-known record (pending if none is stored). -/
def timeoutResp (now : Nat) (id : String) (started : Nat) (st : VState) : Resp :=
  { code := 200, body := .jsonB (timeoutBody id
      ((alGet st.vlei id).getD { status := .pending, ts := now }) (now - started)) }

/-- The `setTimeout` callback armed by `addWaiter`, firing at `now` for the
waiter with sink `r` registered at `started`: answer with the best-known
record (pending if none), then detach this waiter from the registry. -/
def timeoutFire (now : Nat) (id : String) (r : Nat) (started : Nat) (st : VState) : VState :=
  let st1 := safeJson st r (timeoutResp now id started st)
  let rest := ((alGet st1.waiters id).getD []).filter (fun w => w.res ≠ r)
  if rest.isEmpty then { st1 with waiters := alErase st1.waiters id }
  else { st1 with waiters := alSet st1.waiters id rest }

/-- The `{ error: "presentationId required" }` 400 response. -/
def badReqResp : Resp :=
  { code := 400, body := .jsonB (jobj [("error", .str "presentationId required")]) }

/-- Result of one run of the `POST /vlei/verify` handler: final state, the
response returned synchronously by the handler itself (if any), and whether
the upstream APIX submission was attempted. -/
structure VerifyOut where
  st : VState
  resp : Option Resp := none
  forwarded : Bool := false

/-- Handler of `POST /vlei/verify`.  `presentation`/`presentationId`/`expectedLEI` are
the destructured body fields; `apixOn` is `APIX_BASE` being set; `submitRes`
is the outcome of `await axios.post(...)` when it is attempted. -/
def verifyStep (now : Nat) (presentation : Option J) (presentationId : Option String)
    (expectedLEI : Option String) (r : Nat) (apixOn : Bool)
    (submitRes : Except String Unit) (st : VState) : VerifyOut :=
  match presentationId with
  | none => { st := st, resp := some badReqResp }
  | some pid =>
    if pid = "" then
      { st := st, resp := some badReqResp }
    else
      let id := trimStr pid
      if (alGet st.verifySeen id).getD 0 > now then
        let st1 := addWaiter now id r .verify expectedLEI st
        let st2 :=
          match alGet st1.vlei id with
          | some curr => if curr.status ≠ .pending then flushWaiters now id curr st1 else st1
          | none => st1
        { st := st2 }
      else
        let stSeen := { st with verifySeen := alSet st.verifySeen id (now + IDEM_TTL_MS) }
        let note : J := jobj [("note",
          .str (if presentation.isSome then "verify+submit" else "verify-wait"))]
        let st1 := { stSeen with
          vlei := alSet stSeen.vlei id { status := .pending, ts := now, raw := some note } }
        let st2 := addWaiter now id r .verify expectedLEI st1
        if presentation.isSome && apixOn then
          match submitRes with
          | .ok _ => { st := st2, forwarded := true }
          | .error detail =>
            let rest := ((alGet st2.waiters id).getD []).filter (fun w => w.res ≠ r)
            let st3 :=
              if rest.isEmpty then { st2 with waiters := alErase st2.waiters id }
              else { st2 with waiters := alSet st2.waiters id rest }
            { st := st3, forwarded := true,
              resp := some { code := 502, body := .jsonB (jobj
                [("error", .str "apix_submit_error"), ("detail", .str detail)]) } }
        else { st := st2 }

/-- Extraction of an optional JSON field expected to be a string (the source's
TypeScript annotations type `lei`/`validTo` as strings). -/
def jGetStr (j : J) (k : String) : Option String :=
  match jGet j k with
  | some (.str s) => some s
  | _ => none

/-- Continuation of the webhook handler after the cache check: the
leader/follower lock, then the guarded completion computation with its
`finally { __postLocks.delete(key) }`.  The follower poll loop cannot observe
a cache entry appearing in the sequential model (the leader's `finally` has
already run or the lock is stale), so it exits at its deadline with 202. -/
def webhookAfterCache (now : Nat) (body : J) (key : String) (st : VState) : VState × Resp :=
  if (alGet st.__postLocks key).getD 0 > now then
    (st, { code := 202, body := .jsonB (jobj [("status", .str "pending")]),
           idemKey := some key })
  else
    let stL := { st with __postLocks := alSet st.__postLocks key (now + IDEM_TTL_MS) }
    let inner : VState × Resp :=
      if jTruthy (jGet body "presentationId") then
        let id := trimStr (jsString ((jGet body "presentationId").getD .null))
        let record : Rec := { status := if jTruthy (jGet body "valid") then .verified
                                        else .rejected,
                              lei := jGetStr body "lei", validTo := jGetStr body "validTo",
                              raw := jGet body "raw", ts := now }
        let stR := { stL with vlei := alSet stL.vlei id record }
        let stF := flushWaiters now id record stR
        let bodyStr := "\x7b\"ok\":true\x7d"
        let stC := { stF with __postCache := alSet stF.__postCache key ⟨bodyStr, now + IDEM_TTL_MS⟩ }
        (stC, { code := 200, body := .rawB bodyStr, idemKey := some key })
      else
        (stL, badReqResp)
    ({ inner.1 with __postLocks := alErase inner.1.__postLocks key }, inner.2)

/-- Handler of `POST /vlei/apix/webhook`: idempotency-cache fast path keyed by
`hashReq`, else lock + completion (`vlei.set`, `flushWaiters`, cache store). -/
def webhookStep (now : Nat) (body : J) (st : VState) : VState × Resp :=
  let key := hashReq "POST" "/vlei/apix/webhook" body
  match alGet st.__postCache key with
  | some c =>
    if c.exp > now then (st, { code := 200, body := .rawB c.bodyStr, idemKey := some key })
    else webhookAfterCache now body key { st with __postCache := alErase st.__postCache key }
  | none => webhookAfterCache now body key st

/- ================= iso20022-service __idemWrap ================= -/

def __IDEM_CACHE_TTL_MS : Nat := 5000
def __IDEM_LOCK_TTL_MS : Nat := 5000

/-- The module-level maps of the iso20022 idempotency shim. -/
structure IdemState where
  __idemCache : List (String × CacheEntry) := []
  __idemLocks : List (String × Nat) := []

/-- The key `__hashKey(req)` of iso20022-service/server.js (same computation as
`hashReq`). -/
def __hashKey (method path : String) (body : J) : String := hashReq method path body

/-- Lock check and leader computation of `__idemWrap` (after the cache
check).  `compute` is the outcome of `await computeOnce(req)`: `.ok` the
returned object, `.error` a thrown exception.  As in the webhook model, the
follower poll loop resolves to 202 in the sequential model. -/
def idemLeaderOrWait (now : Nat) (key cacheKey : String) (compute : Except String J)
    (st : IdemState) : IdemState × Resp :=
  if (alGet st.__idemLocks cacheKey).getD 0 > now then
    (st, { code := 202, body := .jsonB (jobj [("status", .str "pending")]),
           idemKey := some key })
  else
    let stL := { st with __idemLocks := alSet st.__idemLocks cacheKey (now + __IDEM_LOCK_TTL_MS) }
    let inner : IdemState × Resp :=
      match compute with
      | .ok obj =>
        let bodyS := stableStringify obj
        let stC := { stL with __idemCache := alSet stL.__idemCache cacheKey ⟨bodyS, now + __IDEM_CACHE_TTL_MS⟩ }
        (stC, { code := 200, body := .rawB bodyS, idemKey := some key })
      | .error e =>
        (stL, { code := 500, body := .jsonB (jobj
            [("error", .str "compute_failed"), ("message", .str e)]) })
    ({ inner.1 with __idemLocks := alErase inner.1.__idemLocks cacheKey }, inner.2)

/-- The wrapper `__idemWrap(computeOnce)` applied to one request. -/
def __idemWrap (now : Nat) (method path : String) (body : J) (compute : Except String J)
    (st : IdemState) : IdemState × Resp :=
  let key := __hashKey method path body
  let cacheKey := "idem:" ++ key
  match alGet st.__idemCache cacheKey with
  | some hit =>
    if hit.exp > now then (st, { code := 200, body := .rawB hit.bodyStr, idemKey := some key })
    else idemLeaderOrWait now key cacheKey compute
           { st with __idemCache := alErase st.__idemCache cacheKey }
  | none => idemLeaderOrWait now key cacheKey compute st

/- ================= association-list lemmas ================= -/

theorem alGet_nil {κ α : Type} [DecidableEq κ] (k : κ) :
    alGet ([] : List (κ × α)) k = none := rfl

theorem alGet_cons_self {κ α : Type} [DecidableEq κ] (k : κ) (v : α) (m : List (κ × α)) :
    alGet ((k, v) :: m) k = some v := by
  simp [alGet, List.find?]

theorem alGet_cons_ne {κ α : Type} [DecidableEq κ] {k k' : κ} (v : α) (m : List (κ × α))
    (h : k ≠ k') : alGet ((k, v) :: m) k' = alGet m k' := by
  simp [alGet, List.find?, h]

theorem alGet_set_self {κ α : Type} [DecidableEq κ] (m : List (κ × α)) (k : κ) (v : α) :
    alGet (alSet m k v) k = some v := by
  simp [alSet, alGet_cons_self]

theorem alGet_filter_keep {κ α : Type} [DecidableEq κ] (m : List (κ × α)) (k k' : κ)
    (h : k' ≠ k) : alGet (m.filter (fun p => p.1 ≠ k)) k' = alGet m k' := by
  induction m with
  | nil => rfl
  | cons a m ih =>
    rcases a with ⟨ak, av⟩
    by_cases ha : ak = k
    · have hne : ak ≠ k' := by rw [ha]; exact fun hk => h hk.symm
      rw [alGet_cons_ne _ _ hne]
      simpa [List.filter_cons, ha] using ih
    · by_cases hk' : ak = k'
      · subst hk'
        simp [List.filter_cons, ha, alGet_cons_self]
      · rw [alGet_cons_ne _ _ hk']
        simpa [List.filter_cons, ha, alGet_cons_ne _ _ hk'] using ih

theorem alGet_set_ne {κ α : Type} [DecidableEq κ] (m : List (κ × α)) {k k' : κ} (v : α)
    (h : k' ≠ k) : alGet (alSet m k v) k' = alGet m k' := by
  unfold alSet
  rw [alGet_cons_ne _ _ (fun hk => h hk.symm)]
  exact alGet_filter_keep m k k' h

theorem alGet_erase_self {κ α : Type} [DecidableEq κ] (m : List (κ × α)) (k : κ) :
    alGet (alErase m k) k = none := by
  induction m with
  | nil => rfl
  | cons a m ih =>
    rcases a with ⟨ak, av⟩
    by_cases ha : ak = k
    · simpa [alErase, List.filter_cons, ha] using ih
    · rw [show alErase ((ak, av) :: m) k = (ak, av) :: alErase m k by
        simp [alErase, List.filter_cons, ha]]
      rw [alGet_cons_ne _ _ ha]
      exact ih

theorem alGet_erase_ne {κ α : Type} [DecidableEq κ] (m : List (κ × α)) {k k' : κ}
    (h : k' ≠ k) : alGet (alErase m k) k' = alGet m k' :=
  alGet_filter_keep m k k' h

theorem alErase_cons_self {κ α : Type} [DecidableEq κ] (k : κ) (v : α) (m : List (κ × α)) :
    alErase ((k, v) :: m) k = alErase m k := by
  simp [alErase, List.filter_cons]

/- ================= response-log lemmas ================= -/

/-- Number of responses delivered to sink `k`. -/
def countKey {κ α : Type} [DecidableEq κ] (m : List (κ × α)) (k : κ) : Nat :=
  (m.filter (fun p => p.1 = k)).length

theorem countKey_zero_of_none {κ α : Type} [DecidableEq κ] {m : List (κ × α)} {k : κ}
    (h : alGet m k = none) : countKey m k = 0 := by
  induction m with
  | nil => rfl
  | cons a m ih =>
    rcases a with ⟨ak, av⟩
    by_cases ha : ak = k
    · subst ha; rw [alGet_cons_self] at h; cases h
    · rw [alGet_cons_ne _ _ ha] at h
      simpa [countKey, List.filter_cons, ha] using ih h

theorem countKey_cons_self {κ α : Type} [DecidableEq κ] (k : κ) (v : α) (m : List (κ × α)) :
    countKey ((k, v) :: m) k = countKey m k + 1 := by
  simp [countKey, List.filter_cons]

theorem countKey_cons_ne {κ α : Type} [DecidableEq κ] {k k' : κ} (v : α) (m : List (κ × α))
    (h : k ≠ k') : countKey ((k, v) :: m) k' = countKey m k' := by
  simp [countKey, List.filter_cons, h]

def countResp (st : VState) (r : Nat) : Nat := countKey st.sent r

/- ================= safeJson lemmas ================= -/

theorem safeJson_noop {st : VState} {r : Nat} (p : Resp) (h : (alGet st.sent r).isSome) :
    safeJson st r p = st := by
  simp [safeJson, h]

theorem safeJson_send {st : VState} {r : Nat} (p : Resp) (h : alGet st.sent r = none) :
    safeJson st r p = { st with sent := (r, p) :: st.sent } := by
  simp [safeJson, h]

theorem safeJson_vlei (st : VState) (r : Nat) (p : Resp) :
    (safeJson st r p).vlei = st.vlei := by
  unfold safeJson; split <;> rfl

theorem safeJson_waiters (st : VState) (r : Nat) (p : Resp) :
    (safeJson st r p).waiters = st.waiters := by
  unfold safeJson; split <;> rfl

theorem safeJson_verifySeen (st : VState) (r : Nat) (p : Resp) :
    (safeJson st r p).verifySeen = st.verifySeen := by
  unfold safeJson; split <;> rfl

theorem safeJson_postCache (st : VState) (r : Nat) (p : Resp) :
    (safeJson st r p).__postCache = st.__postCache := by
  unfold safeJson; split <;> rfl

theorem safeJson_postLocks (st : VState) (r : Nat) (p : Resp) :
    (safeJson st r p).__postLocks = st.__postLocks := by
  unfold safeJson; split <;> rfl

/-- A send to a different sink changes neither the response (if any) already
delivered to `r` nor the number of responses delivered to `r`. -/
theorem safeJson_other (st : VState) {r r' : Nat} (p : Resp) (h : r' ≠ r) :
    alGet (safeJson st r' p).sent r = alGet st.sent r ∧
    countResp (safeJson st r' p) r = countResp st r := by
  unfold safeJson
  split
  · exact ⟨rfl, rfl⟩
  · exact ⟨alGet_cons_ne _ _ h, countKey_cons_ne _ _ h⟩

/- ================= flush fold lemmas ================= -/

/-- The flush loop body, generic in the per-waiter response. -/
def flushFold (f : Waiter → Resp) (l : List Waiter) (st : VState) : VState :=
  l.foldl (fun acc w => safeJson acc w.res (f w)) st

theorem flushFold_nil (f : Waiter → Resp) (st : VState) : flushFold f [] st = st := rfl

theorem flushFold_cons (f : Waiter → Resp) (w : Waiter) (l : List Waiter) (st : VState) :
    flushFold f (w :: l) st = flushFold f l (safeJson st w.res (f w)) := rfl

theorem flushFold_vlei (f : Waiter → Resp) (l : List Waiter) (st : VState) :
    (flushFold f l st).vlei = st.vlei := by
  induction l generalizing st with
  | nil => rfl
  | cons w l ih => rw [flushFold_cons, ih, safeJson_vlei]

theorem flushFold_waiters (f : Waiter → Resp) (l : List Waiter) (st : VState) :
    (flushFold f l st).waiters = st.waiters := by
  induction l generalizing st with
  | nil => rfl
  | cons w l ih => rw [flushFold_cons, ih, safeJson_waiters]

theorem flushFold_verifySeen (f : Waiter → Resp) (l : List Waiter) (st : VState) :
    (flushFold f l st).verifySeen = st.verifySeen := by
  induction l generalizing st with
  | nil => rfl
  | cons w l ih => rw [flushFold_cons, ih, safeJson_verifySeen]

theorem flushFold_postCache (f : Waiter → Resp) (l : List Waiter) (st : VState) :
    (flushFold f l st).__postCache = st.__postCache := by
  induction l generalizing st with
  | nil => rfl
  | cons w l ih => rw [flushFold_cons, ih, safeJson_postCache]

theorem flushFold_postLocks (f : Waiter → Resp) (l : List Waiter) (st : VState) :
    (flushFold f l st).__postLocks = st.__postLocks := by
  induction l generalizing st with
  | nil => rfl
  | cons w l ih => rw [flushFold_cons, ih, safeJson_postLocks]

/-- A sink that already received its response keeps it (and its response
count) across the whole flush loop. -/
theorem flushFold_keep (f : Waiter → Resp) (l : List Waiter) (st : VState) {r : Nat}
    {x : Resp} (h : alGet st.sent r = some x) :
    alGet (flushFold f l st).sent r = some x ∧
    countResp (flushFold f l st) r = countResp st r := by
  induction l generalizing st with
  | nil => exact ⟨h, rfl⟩
  | cons w l ih =>
    rw [flushFold_cons]
    by_cases hw : w.res = r
    · subst hw
      rw [safeJson_noop _ (by rw [h]; rfl)]
      exact ih _ h
    · have hp := safeJson_other st (f w) hw
      have := ih (safeJson st w.res (f w)) (hp.1.trans h)
      exact ⟨this.1, this.2.trans hp.2⟩

/-- If no waiter in the loop targets sink `r`, the loop does not touch `r`. -/
theorem flushFold_untouched (f : Waiter → Resp) (l : List Waiter) (st : VState) {r : Nat}
    (h : ∀ w ∈ l, w.res ≠ r) :
    alGet (flushFold f l st).sent r = alGet st.sent r ∧
    countResp (flushFold f l st) r = countResp st r := by
  induction l generalizing st with
  | nil => exact ⟨rfl, rfl⟩
  | cons w l ih =>
    rw [flushFold_cons]
    have hp := safeJson_other st (f w) (h w (List.mem_cons_self w l))
    have := ih (safeJson st w.res (f w)) (fun w' hw' => h w' (List.mem_cons_of_mem _ hw'))
    exact ⟨this.1.trans hp.1, this.2.trans hp.2⟩

/-- A so-far-unanswered sink targeted by some waiter in the loop receives
exactly one response from the loop. -/
theorem flushFold_hit (f : Waiter → Resp) (l : List Waiter) (st : VState) {r : Nat}
    (h0 : alGet st.sent r = none) (hw : ∃ w ∈ l, w.res = r) :
    countResp (flushFold f l st) r = 1 := by
  induction l generalizing st with
  | nil => rcases hw with ⟨w, hmem, _⟩; cases hmem
  | cons w l ih =>
    rw [flushFold_cons]
    by_cases hres : w.res = r
    · subst hres
      rw [safeJson_send _ h0]
      have hsome : alGet ({ st with sent := (w.res, f w) :: st.sent } : VState).sent w.res
          = some (f w) := alGet_cons_self _ _ _
      have hk := flushFold_keep f l _ hsome
      rw [hk.2]
      show countKey ((w.res, f w) :: st.sent) w.res = 1
      rw [countKey_cons_self, countKey_zero_of_none h0]
    · have hp := safeJson_other st (f w) hres
      rcases hw with ⟨w', hmem, hres'⟩
      rcases List.mem_cons.mp hmem with h1 | h1
      · subst h1; exact absurd hres' hres
      · exact ih (safeJson st w.res (f w)) (hp.1.trans h0) ⟨w', h1, hres'⟩

/-- With pairwise-distinct sinks, all of them fresh, every waiter in the loop
receives exactly its own tailored response. -/
theorem flushFold_each (f : Waiter → Resp) (l : List Waiter) (st : VState)
    (hd : l.Pairwise (fun a b => a.res ≠ b.res))
    (h0 : ∀ w ∈ l, alGet st.sent w.res = none) :
    ∀ w ∈ l, alGet (flushFold f l st).sent w.res = some (f w) := by
  induction l generalizing st with
  | nil => intro w hw; cases hw
  | cons w0 l ih =>
    intro w hw
    rw [flushFold_cons]
    have hsend := safeJson_send (f w0) (h0 w0 (List.mem_cons_self w0 l))
    rcases List.mem_cons.mp hw with h1 | h1
    · subst h1
      rw [hsend]
      exact (flushFold_keep f l _ (alGet_cons_self _ _ _)).1
    · have hd' := (List.pairwise_cons.mp hd)
      have hne : w.res ≠ w0.res := fun he => (hd'.1 w h1) he.symm
      have h0' : alGet (safeJson st w0.res (f w0)).sent w.res = none := by
        rw [hsend]
        show alGet ((w0.res, f w0) :: st.sent) w.res = none
        rw [alGet_cons_ne _ _ (fun he => hne he.symm)]
        exact h0 w (List.mem_cons_of_mem _ h1)
      have h0l : ∀ w' ∈ l, alGet (safeJson st w0.res (f w0)).sent w'.res = none := by
        intro w' hw'
        rw [hsend]
        show alGet ((w0.res, f w0) :: st.sent) w'.res = none
        rw [alGet_cons_ne _ _ (hd'.1 w' hw')]
        exact h0 w' (List.mem_cons_of_mem _ hw')
      exact ih _ hd'.2 h0l w h1

/- ================= flushWaiters structure lemmas ================= -/

theorem flushWaiters_of_none {st : VState} {id : String} (now : Nat) (s : Rec)
    (h : alGet st.waiters id = none) : flushWaiters now id s st = st := by
  unfold flushWaiters; rw [h]

theorem flushWaiters_of_nil {st : VState} {id : String} (now : Nat) (s : Rec)
    (h : alGet st.waiters id = some []) : flushWaiters now id s st = st := by
  unfold flushWaiters; rw [h]; rfl

theorem flushWaiters_eq {st : VState} {id : String} {l : List Waiter} (now : Nat) (s : Rec)
    (h : alGet st.waiters id = some l) (hne : l ≠ []) :
    flushWaiters now id s st =
      flushFold (flushResp now id s) l { st with waiters := alErase st.waiters id } := by
  unfold flushWaiters; rw [h]
  simp [List.isEmpty_iff, hne, flushFold]

theorem flushWaiters_vlei (now : Nat) (id : String) (s : Rec) (st : VState) :
    (flushWaiters now id s st).vlei = st.vlei := by
  unfold flushWaiters
  rcases h : alGet st.waiters id with _ | l
  · rfl
  · rcases l with _ | ⟨w, l⟩
    · rfl
    · exact flushFold_vlei _ _ _

theorem flushWaiters_postCache (now : Nat) (id : String) (s : Rec) (st : VState) :
    (flushWaiters now id s st).__postCache = st.__postCache := by
  unfold flushWaiters
  rcases h : alGet st.waiters id with _ | l
  · rfl
  · rcases l with _ | ⟨w, l⟩
    · rfl
    · exact flushFold_postCache _ _ _

theorem flushWaiters_postLocks (now : Nat) (id : String) (s : Rec) (st : VState) :
    (flushWaiters now id s st).__postLocks = st.__postLocks := by
  unfold flushWaiters
  rcases h : alGet st.waiters id with _ | l
  · rfl
  · rcases l with _ | ⟨w, l⟩
    · rfl
    · exact flushFold_postLocks _ _ _

theorem flushWaiters_verifySeen (now : Nat) (id : String) (s : Rec) (st : VState) :
    (flushWaiters now id s st).verifySeen = st.verifySeen := by
  unfold flushWaiters
  rcases h : alGet st.waiters id with _ | l
  · rfl
  · rcases l with _ | ⟨w, l⟩
    · rfl
    · exact flushFold_verifySeen _ _ _

/-- After a (non-trivial) flush the whole waiter list for `id` is gone. -/
theorem flushWaiters_drained {st : VState} {id : String} {l : List Waiter} (now : Nat)
    (s : Rec) (h : alGet st.waiters id = some l) (hne : l ≠ []) :
    alGet (flushWaiters now id s st).waiters id = none := by
  rw [flushWaiters_eq now s h hne, flushFold_waiters]
  exact alGet_erase_self _ _

/- ================= response-body field lemmas ================= -/

theorem entGet_ofListE (L : List (String × J)) (k : String) :
    entGet (ofListE L) k = alGet L k := by
  induction L with
  | nil => rfl
  | cons p L ih =>
    rcases p with ⟨pk, pv⟩
    by_cases hk : pk = k
    · subst hk
      simp [ofListE, entGet, alGet_cons_self]
    · rw [show ofListE ((pk, pv) :: L) = .cons pk pv (ofListE L) from rfl]
      rw [show entGet (.cons pk pv (ofListE L)) k = entGet (ofListE L) k by
        simp [entGet, hk]]
      rw [alGet_cons_ne _ _ hk]
      exact ih

theorem jGet_jobj (L : List (String × J)) (k : String) :
    jGet (jobj L) k = alGet L k := entGet_ofListE L k

theorem alGet_recFields_status (r : Rec) (T : List (String × J)) :
    alGet (recFields r ++ T) "status" = some (.str (statusStr r.status)) := by
  simp [recFields, alGet_cons_self]

theorem alGet_recFields_rejectReason (r : Rec) (T : List (String × J)) :
    alGet (recFields r ++ T) "rejectReason" =
      match r.rejectReason with
      | some v => some (.str v)
      | none => alGet T "rejectReason" := by
  rcases r with ⟨rs, lei, vt, raw, ts, rr⟩
  cases lei <;> cases vt <;> cases raw <;> cases rr <;>
    simp [recFields, optField, alGet, List.find?]

theorem alGet_recFields_skip (r : Rec) (T : List (String × J)) (k : String)
    (h1 : k ≠ "status") (h2 : k ≠ "lei") (h3 : k ≠ "validTo") (h4 : k ≠ "raw")
    (h5 : k ≠ "ts") (h6 : k ≠ "rejectReason") :
    alGet (recFields r ++ T) k = alGet T k := by
  rcases r with ⟨rs, lei, vt, raw, ts, rr⟩
  have g1 := Ne.symm h1
  have g2 := Ne.symm h2
  have g3 := Ne.symm h3
  have g4 := Ne.symm h4
  have g5 := Ne.symm h5
  have g6 := Ne.symm h6
  cases lei <;> cases vt <;> cases raw <;> cases rr <;>
    simp [recFields, optField, alGet, List.find?, g1, g2, g3, g4, g5, g6]

theorem jGet_flushBody_status (now : Nat) (id : String) (s : Rec) (w : Waiter) :
    jGet (flushBody now id s w) "status" = some (.str (statusStr (flushRec s w).status)) := by
  rw [flushBody, jGet_jobj]
  rw [show ([("ok", J.bool true), ("presentationId", J.str id)] ++
        recFields (flushRec s w) ++ [("waitedMs", J.num (now - w.started))])
      = ("ok", J.bool true) :: ("presentationId", J.str id) ::
        (recFields (flushRec s w) ++ [("waitedMs", J.num (now - w.started))]) from rfl]
  rw [alGet_cons_ne _ _ (by decide), alGet_cons_ne _ _ (by decide)]
  exact alGet_recFields_status _ _

theorem jGet_flushBody_rejectReason (now : Nat) (id : String) (s : Rec) (w : Waiter) :
    jGet (flushBody now id s w) "rejectReason" =
      match (flushRec s w).rejectReason with
      | some v => some (.str v)
      | none => none := by
  rw [flushBody, jGet_jobj]
  rw [show ([("ok", J.bool true), ("presentationId", J.str id)] ++
        recFields (flushRec s w) ++ [("waitedMs", J.num (now - w.started))])
      = ("ok", J.bool true) :: ("presentationId", J.str id) ::
        (recFields (flushRec s w) ++ [("waitedMs", J.num (now - w.started))]) from rfl]
  rw [alGet_cons_ne _ _ (by decide), alGet_cons_ne _ _ (by decide)]
  rw [alGet_recFields_rejectReason]
  cases (flushRec s w).rejectReason <;> simp [alGet, List.find?]

theorem jGet_timeoutBody_status (id : String) (s : Rec) (wm : Nat) :
    jGet (timeoutBody id s wm) "status" = some (.str (statusStr s.status)) := by
  rw [timeoutBody, jGet_jobj]
  rw [show ([("ok", J.bool true), ("presentationId", J.str id)] ++ recFields s ++
        [("timeout", J.bool true), ("waitedMs", J.num wm)])
      = ("ok", J.bool true) :: ("presentationId", J.str id) ::
        (recFields s ++ [("timeout", J.bool true), ("waitedMs", J.num wm)]) from rfl]
  rw [alGet_cons_ne _ _ (by decide), alGet_cons_ne _ _ (by decide)]
  exact alGet_recFields_status _ _

theorem jGet_timeoutBody_timeout (id : String) (s : Rec) (wm : Nat) :
    jGet (timeoutBody id s wm) "timeout" = some (.bool true) := by
  rw [timeoutBody, jGet_jobj]
  rw [show ([("ok", J.bool true), ("presentationId", J.str id)] ++ recFields s ++
        [("timeout", J.bool true), ("waitedMs", J.num wm)])
      = ("ok", J.bool true) :: ("presentationId", J.str id) ::
        (recFields s ++ [("timeout", J.bool true), ("waitedMs", J.num wm)]) from rfl]
  rw [alGet_cons_ne _ _ (by decide), alGet_cons_ne _ _ (by decide)]
  rw [alGet_recFields_skip _ _ _ (by decide) (by decide) (by decide) (by decide)
    (by decide) (by decide)]
  exact alGet_cons_self _ _ _

theorem jGet_timeoutBody_waitedMs (id : String) (s : Rec) (wm : Nat) :
    jGet (timeoutBody id s wm) "waitedMs" = some (.num wm) := by
  rw [timeoutBody, jGet_jobj]
  rw [show ([("ok", J.bool true), ("presentationId", J.str id)] ++ recFields s ++
        [("timeout", J.bool true), ("waitedMs", J.num wm)])
      = ("ok", J.bool true) :: ("presentationId", J.str id) ::
        (recFields s ++ [("timeout", J.bool true), ("waitedMs", J.num wm)]) from rfl]
  rw [alGet_cons_ne _ _ (by decide), alGet_cons_ne _ _ (by decide)]
  rw [alGet_recFields_skip _ _ _ (by decide) (by decide) (by decide) (by decide)
    (by decide) (by decide)]
  rw [alGet_cons_ne _ _ (by decide)]
  exact alGet_cons_self _ _ _

/- ================= flushRec case lemmas ================= -/

theorem flushRec_no_constraint {s : Rec} {w : Waiter} (h : w.expectedLEI = none) :
    flushRec s w = s := by
  unfold flushRec; rw [h]

theorem flushRec_mismatch {s : Rec} {w : Waiter} {e : String}
    (he : w.expectedLEI = some e) (hm : w.mode = .verify) (hs : s.status = .verified)
    (hne : e ≠ "") (hmm : leiMismatch s.lei e = true) :
    flushRec s w = { s with status := .rejected, rejectReason := some "expected_lei_mismatch" } := by
  simp only [flushRec, he]
  rw [if_pos ⟨hm, hs, hne⟩, if_pos hmm]

theorem flushRec_constraint_ok {s : Rec} {w : Waiter} {e : String}
    (he : w.expectedLEI = some e) (hmm : leiMismatch s.lei e = false) :
    flushRec s w = s := by
  simp only [flushRec, he]
  split_ifs with h1 h2
  · rw [hmm] at h2; cases h2
  · rfl
  · rfl

/- ================= timeoutFire lemmas ================= -/

theorem timeoutFire_sent_fresh {st : VState} {r : Nat} (now : Nat) (id : String)
    (started : Nat) (h0 : alGet st.sent r = none) :
    (timeoutFire now id r started st).sent = (r, timeoutResp now id started st) :: st.sent := by
  unfold timeoutFire
  rw [safeJson_send _ h0]
  dsimp only
  split <;> rfl

theorem timeoutFire_sent_noop {st : VState} {r : Nat} (now : Nat) (id : String)
    (started : Nat) (h : (alGet st.sent r).isSome) :
    (timeoutFire now id r started st).sent = st.sent := by
  unfold timeoutFire
  rw [safeJson_noop _ h]
  dsimp only
  split <;> rfl

theorem timeoutFire_waiters (now : Nat) (id : String) (r started : Nat) (st : VState) :
    (timeoutFire now id r started st).waiters =
      if (((alGet st.waiters id).getD []).filter (fun x => x.res ≠ r)).isEmpty
      then alErase st.waiters id
      else alSet st.waiters id (((alGet st.waiters id).getD []).filter (fun x => x.res ≠ r)) := by
  unfold timeoutFire
  dsimp only
  rw [safeJson_waiters]
  split <;> rfl

theorem timeoutFire_vlei (now : Nat) (id : String) (r started : Nat) (st : VState) :
    (timeoutFire now id r started st).vlei = st.vlei := by
  unfold timeoutFire
  dsimp only
  split
  · exact safeJson_vlei _ _ _
  · exact safeJson_vlei _ _ _

/-- The waiter with sink `r` no longer appears in the registry entry for `id`. -/
def detached (st : VState) (id : String) (r : Nat) : Prop :=
  ∀ l, alGet st.waiters id = some l → ∀ w ∈ l, w.res ≠ r

theorem timeoutFire_detached (now : Nat) (id : String) (r started : Nat) (st : VState) :
    detached (timeoutFire now id r started st) id r := by
  intro l' h' w' hw'
  rw [timeoutFire_waiters] at h'
  split at h'
  · rw [alGet_erase_self] at h'; cases h'
  · rw [alGet_set_self] at h'
    cases h'
    exact of_decide_eq_true (List.mem_filter.mp hw').2

/- ================= C2 ================= -/

theorem isSome_of_countResp_one {st : VState} {r : Nat} (h : countResp st r = 1) :
    (alGet st.sent r).isSome := by
  rcases hA : alGet st.sent r with _ | x
  · have h0 : countResp st r = 0 := countKey_zero_of_none hA
    rw [h0] at h; cases h
  · rfl

/-- C2: every waiter registered for a CorrelationId receives exactly one
response.  `flushWaiters` removes the whole waiter list for the id from the
registry before answering each waiter, and whichever of `flushWaiters` and the
waiter's own timeout runs first, the sink receives exactly one response and
the waiter ends detached from the registry (the losing path sends nothing). -/
theorem waiter_exactly_one_response
    (st : VState) (id : String) (s : Rec) (l : List Waiter) (w : Waiter)
    (now1 now2 started : Nat)
    (hl : alGet st.waiters id = some l) (hw : w ∈ l) (h0 : alGet st.sent w.res = none) :
    countResp (timeoutFire now2 id w.res started (flushWaiters now1 id s st)) w.res = 1 ∧
    detached (timeoutFire now2 id w.res started (flushWaiters now1 id s st)) id w.res ∧
    countResp (flushWaiters now2 id s (timeoutFire now1 id w.res started st)) w.res = 1 ∧
    detached (flushWaiters now2 id s (timeoutFire now1 id w.res started st)) id w.res ∧
    alGet (flushWaiters now1 id s st).waiters id = none := by
  have hne : l ≠ [] := List.ne_nil_of_mem hw
  -- order A: flush wins, the timeout afterwards is a no-op on the sink
  have hfeq := flushWaiters_eq now1 s hl hne
  have hcount1 : countResp (flushWaiters now1 id s st) w.res = 1 := by
    rw [hfeq]
    exact flushFold_hit _ l _ h0 ⟨w, hw, rfl⟩
  have hdrain : alGet (flushWaiters now1 id s st).waiters id = none :=
    flushWaiters_drained now1 s hl hne
  have hA1 : countResp (timeoutFire now2 id w.res started (flushWaiters now1 id s st)) w.res
      = 1 := by
    show countKey (timeoutFire now2 id w.res started (flushWaiters now1 id s st)).sent w.res = 1
    rw [timeoutFire_sent_noop _ _ _ (isSome_of_countResp_one hcount1)]
    exact hcount1
  -- order B: the timeout wins, the flush afterwards does not touch the sink
  have hTsent := timeoutFire_sent_fresh now1 id started h0
  have hB0 : countResp (timeoutFire now1 id w.res started st) w.res = 1 := by
    show countKey (timeoutFire now1 id w.res started st).sent w.res = 1
    rw [hTsent, countKey_cons_self, countKey_zero_of_none h0]
  have hTw := timeoutFire_waiters now1 id w.res started st
  have hB1 : countResp (flushWaiters now2 id s (timeoutFire now1 id w.res started st)) w.res
      = 1 ∧ detached (flushWaiters now2 id s (timeoutFire now1 id w.res started st)) id
          w.res := by
    by_cases hE : (((alGet st.waiters id).getD []).filter (fun x => x.res ≠ w.res)).isEmpty
    · -- the timeout erased the (now empty) list; the flush is a no-op
      have hnone : alGet (timeoutFire now1 id w.res started st).waiters id = none := by
        rw [hTw, if_pos hE]; exact alGet_erase_self _ _
      rw [flushWaiters_of_none now2 s hnone]
      refine ⟨hB0, ?_⟩
      intro l' h' w' hw'
      rw [hnone] at h'; cases h'
    · -- the registry still holds the other waiters: the flush answers only them
      have hsome : alGet (timeoutFire now1 id w.res started st).waiters id
          = some (((alGet st.waiters id).getD []).filter (fun x => x.res ≠ w.res)) := by
        rw [hTw, if_neg hE]; exact alGet_set_self _ _ _
      have hne2 : ((alGet st.waiters id).getD []).filter (fun x => x.res ≠ w.res) ≠ [] := by
        intro hnil; rw [hnil] at hE; exact hE rfl
      have hfe := flushWaiters_eq now2 s hsome hne2
      constructor
      · rw [hfe]
        have hres : ∀ x ∈ ((alGet st.waiters id).getD []).filter
            (fun x => x.res ≠ w.res), x.res ≠ w.res := by
          intro x hx
          exact of_decide_eq_true (List.mem_filter.mp hx).2
        have := flushFold_untouched (flushResp now2 id s) _
          { timeoutFire now1 id w.res started st with
            waiters := alErase (timeoutFire now1 id w.res started st).waiters id } hres
        rw [countResp] at this ⊢
        rw [this.2]
        exact hB0
      · intro l' h' w' hw'
        rw [flushWaiters_eq now2 s hsome hne2, flushFold_waiters] at h'
        rw [alGet_erase_self] at h'
        cases h'
  -- assemble
  refine ⟨hA1, ?_, hB1.1, hB1.2, hdrain⟩
  exact timeoutFire_detached now2 id w.res started (flushWaiters now1 id s st)

/-- C2 witness: a concrete state with one registered waiter, run through both
orders. -/
theorem waiter_exactly_one_response_witness :
    countResp (timeoutFire 6 "p" 7 0 (flushWaiters 5 "p"
      { status := .verified, ts := 1 } { waiters := [("p", [⟨7, 0, .verify, none⟩])] })) 7
      = 1 ∧
    detached (timeoutFire 6 "p" 7 0 (flushWaiters 5 "p" { status := .verified, ts := 1 }
      { waiters := [("p", [⟨7, 0, .verify, none⟩])] })) "p" 7 ∧
    countResp (flushWaiters 6 "p" { status := .verified, ts := 1 } (timeoutFire 5 "p" 7 0
      { waiters := [("p", [⟨7, 0, .verify, none⟩])] })) 7 = 1 ∧
    detached (flushWaiters 6 "p" { status := .verified, ts := 1 } (timeoutFire 5 "p" 7 0
      { waiters := [("p", [⟨7, 0, .verify, none⟩])] })) "p" 7 ∧
    alGet (flushWaiters 5 "p" { status := .verified, ts := 1 }
      { waiters := [("p", [⟨7, 0, .verify, none⟩])] }).waiters "p" = none :=
  waiter_exactly_one_response
    { waiters := [("p", [⟨7, 0, .verify, none⟩])] } "p" { status := .verified, ts := 1 }
    [⟨7, 0, .verify, none⟩] ⟨7, 0, .verify, none⟩ 5 6 0 rfl (List.mem_singleton.mpr rfl) rfl

/- ================= C3 ================= -/

/-- C3: when the flush runs with a verified outcome, a (verify-mode) waiter
whose truthy `expectedLEI` constraint does not match the stored value receives
a response downgraded to rejected with reason `expected_lei_mismatch`; the
stored shared record is untouched by the flush, and a waiter with no
constraint (or whose constraint matches) receives the original verified
outcome. -/
theorem flush_constraint_divergence
    (st : VState) (id : String) (s : Rec) (l : List Waiter) (now : Nat)
    (hl : alGet st.waiters id = some l)
    (hd : l.Pairwise (fun a b => a.res ≠ b.res))
    (h0 : ∀ w ∈ l, alGet st.sent w.res = none)
    (hs : s.status = .verified) :
    (flushWaiters now id s st).vlei = st.vlei ∧
    ∀ w ∈ l,
      alGet (flushWaiters now id s st).sent w.res = some (flushResp now id s w) ∧
      (∀ e, w.expectedLEI = some e → e ≠ "" → w.mode = .verify →
        leiMismatch s.lei e = true →
          jGet (flushBody now id s w) "status" = some (.str "rejected") ∧
          jGet (flushBody now id s w) "rejectReason"
            = some (.str "expected_lei_mismatch")) ∧
      ((w.expectedLEI = none ∨ ∃ e, w.expectedLEI = some e ∧ leiMismatch s.lei e = false) →
          flushRec s w = s ∧
          jGet (flushBody now id s w) "status" = some (.str "verified")) := by
  refine ⟨flushWaiters_vlei now id s st, ?_⟩
  intro w hw
  have hne : l ≠ [] := List.ne_nil_of_mem hw
  refine ⟨?_, ?_, ?_⟩
  · rw [flushWaiters_eq now s hl hne]
    exact flushFold_each _ l { st with waiters := alErase st.waiters id } hd h0 w hw
  · intro e he hene hm hmm
    have hfr := flushRec_mismatch he hm hs hene hmm
    constructor
    · rw [jGet_flushBody_status, hfr]
      rfl
    · rw [jGet_flushBody_rejectReason, hfr]
  · rintro (hnone | ⟨e, he, hmm⟩)
    · have hfr : flushRec s w = s := flushRec_no_constraint hnone
      exact ⟨hfr, by rw [jGet_flushBody_status, hfr, hs]; rfl⟩
    · have hfr := flushRec_constraint_ok he hmm
      exact ⟨hfr, by rw [jGet_flushBody_status, hfr, hs]; rfl⟩


/-- C3 witness: two waiters for `p2`, one expecting `Y`, one unconstrained;
the callback value is `X`. -/
theorem flush_constraint_divergence_witness :
    jGet (flushBody 2 "p2" { status := .verified, lei := some "X", ts := 1 }
      ⟨7, 0, .verify, some "Y"⟩) "status" = some (.str "rejected") ∧
    jGet (flushBody 2 "p2" { status := .verified, lei := some "X", ts := 1 }
      ⟨7, 0, .verify, some "Y"⟩) "rejectReason" = some (.str "expected_lei_mismatch") ∧
    flushRec { status := .verified, lei := some "X", ts := 1 } ⟨8, 0, .verify, none⟩
      = { status := .verified, lei := some "X", ts := 1 } ∧
    alGet (flushWaiters 2 "p2" { status := .verified, lei := some "X", ts := 1 }
        { waiters := [("p2", [⟨7, 0, .verify, some "Y"⟩, ⟨8, 0, .verify, none⟩])] }).sent 7
      = some (flushResp 2 "p2" { status := .verified, lei := some "X", ts := 1 }
          ⟨7, 0, .verify, some "Y"⟩) := by
  have h := flush_constraint_divergence
    { waiters := [("p2", [⟨7, 0, .verify, some "Y"⟩, ⟨8, 0, .verify, none⟩])] } "p2"
    { status := .verified, lei := some "X", ts := 1 }
    [⟨7, 0, .verify, some "Y"⟩, ⟨8, 0, .verify, none⟩] 2 rfl
    (by constructor
        · intro b hb
          rw [List.mem_singleton.mp hb]
          decide
        · exact List.pairwise_singleton _ _)
    (by intro w' hw'; rfl) rfl
  have h7 := h.2 ⟨7, 0, .verify, some "Y"⟩ (List.mem_cons_self _ _)
  have h8 := h.2 ⟨8, 0, .verify, none⟩
    (List.mem_cons_of_mem _ (List.mem_cons_self _ _))
  exact ⟨(h7.2.1 "Y" rfl (by decide) rfl rfl).1, (h7.2.1 "Y" rfl (by decide) rfl rfl).2,
    (h8.2.2 (Or.inl rfl)).1, h7.1⟩

/- ================= C7 ================= -/

/-- C7 counterexample: the timeout response carries `timeout: true` and no
`timedOut` field at all, so the claimed `timedOut: true` payload is not what a
timed-out waiter receives.  (With an empty store the best-known status is
pending, and the response is delivered to the waiter's sink.) -/
theorem timeout_field_name_cx :
    jGet (timeoutBody "p1" { status := .pending, ts := 120000 } 120000) "timedOut" = none ∧
    jGet (timeoutBody "p1" { status := .pending, ts := 120000 } 120000) "timeout"
      = some (.bool true) ∧
    alGet (timeoutFire 120000 "p1" 7 0 {}).sent 7
      = some { code := 200,
               body := .jsonB (timeoutBody "p1" { status := .pending, ts := 120000 } 120000) } :=
  ⟨rfl, rfl, rfl⟩

/-- C7 (amended): a long-poll waiter that never receives a callback is
answered when its timer fires (at `started + SUBMIT_TIMEOUT_MS`) with a 200
response whose body carries `timeout: true` (the source's field name — not
`timedOut`), a `waitedMs` field equal to the configured timeout, and the
best-known status (`pending` when no record exists), and the waiter is
removed from the registry. -/
theorem timeout_resolves_waiter
    (st : VState) (id : String) (r started : Nat)
    (h0 : alGet st.sent r = none) :
    alGet (timeoutFire (started + SUBMIT_TIMEOUT_MS) id r started st).sent r
      = some { code := 200, body := .jsonB (timeoutBody id
          ((alGet st.vlei id).getD { status := .pending, ts := started + SUBMIT_TIMEOUT_MS })
          SUBMIT_TIMEOUT_MS) } ∧
    jGet (timeoutBody id ((alGet st.vlei id).getD
        { status := .pending, ts := started + SUBMIT_TIMEOUT_MS }) SUBMIT_TIMEOUT_MS)
      "timeout" = some (.bool true) ∧
    jGet (timeoutBody id ((alGet st.vlei id).getD
        { status := .pending, ts := started + SUBMIT_TIMEOUT_MS }) SUBMIT_TIMEOUT_MS)
      "waitedMs" = some (.num SUBMIT_TIMEOUT_MS) ∧
    jGet (timeoutBody id ((alGet st.vlei id).getD
        { status := .pending, ts := started + SUBMIT_TIMEOUT_MS }) SUBMIT_TIMEOUT_MS)
      "status" = some (.str (statusStr ((alGet st.vlei id).getD
          { status := .pending, ts := started + SUBMIT_TIMEOUT_MS }).status)) ∧
    (alGet st.vlei id = none →
      jGet (timeoutBody id ((alGet st.vlei id).getD
        { status := .pending, ts := started + SUBMIT_TIMEOUT_MS }) SUBMIT_TIMEOUT_MS)
        "status" = some (.str "pending")) ∧
    detached (timeoutFire (started + SUBMIT_TIMEOUT_MS) id r started st) id r := by
  have hws : started + SUBMIT_TIMEOUT_MS - started = SUBMIT_TIMEOUT_MS := by omega
  refine ⟨?_, jGet_timeoutBody_timeout _ _ _, jGet_timeoutBody_waitedMs _ _ _,
    jGet_timeoutBody_status _ _ _, ?_, timeoutFire_detached _ _ _ _ _⟩
  · rw [timeoutFire_sent_fresh _ _ _ h0, alGet_cons_self]
    unfold timeoutResp
    rw [hws]
  · intro hn
    rw [hn, jGet_timeoutBody_status]
    rfl

/-- C7 witness: a fresh waiter sink in an empty store. -/
theorem timeout_resolves_waiter_witness :
    alGet (timeoutFire (3 + SUBMIT_TIMEOUT_MS) "p1" 7 3 {}).sent 7
      = some { code := 200, body := .jsonB (timeoutBody "p1"
          ((alGet ({} : VState).vlei "p1").getD
            { status := .pending, ts := 3 + SUBMIT_TIMEOUT_MS }) SUBMIT_TIMEOUT_MS) } :=
  (timeout_resolves_waiter {} "p1" 7 3 rfl).1

/- ================= addWaiter lemmas ================= -/

/-- The waiter object `addWaiter` pushes. -/
def mkWaiter (now r : Nat) (mode : WMode) (e : Option String) : Waiter :=
  { res := r, started := now, mode := mode, expectedLEI := e }

theorem addWaiter_pending {st : VState} {id : String} (now r : Nat) (mode : WMode)
    (e : Option String)
    (h : ∀ curr, alGet st.vlei id = some curr → curr.status = .pending) :
    addWaiter now id r mode e st = { st with waiters := alSet st.waiters id ((alGet st.waiters id).getD [] ++ [mkWaiter now r mode e]) } := by
  unfold addWaiter mkWaiter
  dsimp only
  split
  · rename_i curr heq
    have hp : curr.status = .pending := h curr heq
    rw [if_neg (by rw [hp]; exact fun hc => hc rfl)]
  · rfl

theorem addWaiter_terminal {st : VState} {id : String} {curr : Rec} (now r : Nat)
    (mode : WMode) (e : Option String)
    (h : alGet st.vlei id = some curr) (ht : curr.status ≠ .pending) :
    addWaiter now id r mode e st = flushWaiters now id curr { st with waiters := alSet st.waiters id ((alGet st.waiters id).getD [] ++ [mkWaiter now r mode e]) } := by
  unfold addWaiter mkWaiter
  dsimp only
  split
  · rename_i curr' heq
    have heq' : alGet st.vlei id = some curr' := heq
    rw [h] at heq'
    cases heq'
    rw [if_pos ht]
  · rename_i heq
    have heq' : alGet st.vlei id = none := heq
    rw [h] at heq'
    cases heq'

/- ================= C10 ================= -/

/-- C10: a second verify request for the same presentationId inside the dedup
window is coalesced on the id alone: whatever its body (presentation payload
and expectedLEI are arbitrary), it triggers no upstream submission, writes no
record state and no dedup state, returns nothing synchronously, and merely
appends itself as a waiter carrying its own expectedLEI constraint. -/
theorem verify_dedup_coalesces
    (st : VState) (now : Nat) (presentation : Option J) (p : String)
    (expectedLEI : Option String) (r : Nat) (apixOn : Bool)
    (submitRes : Except String Unit)
    (hp : ¬p = "")
    (hseen : (alGet st.verifySeen (trimStr p)).getD 0 > now)
    (hpend : ∀ curr, alGet st.vlei (trimStr p) = some curr → curr.status = .pending) :
    (verifyStep now presentation (some p) expectedLEI r apixOn submitRes st).forwarded
      = false ∧
    (verifyStep now presentation (some p) expectedLEI r apixOn submitRes st).resp = none ∧
    (verifyStep now presentation (some p) expectedLEI r apixOn submitRes st).st.vlei
      = st.vlei ∧
    (verifyStep now presentation (some p) expectedLEI r apixOn submitRes st).st.verifySeen
      = st.verifySeen ∧
    alGet (verifyStep now presentation (some p) expectedLEI r apixOn submitRes st).st.waiters
        (trimStr p)
      = some ((alGet st.waiters (trimStr p)).getD [] ++ [mkWaiter now r .verify expectedLEI]) := by
  unfold verifyStep
  dsimp only
  rw [if_neg hp, if_pos hseen, addWaiter_pending now r .verify expectedLEI hpend]
  dsimp only
  split
  · rename_i curr heq
    have heq' : alGet st.vlei (trimStr p) = some curr := heq
    rw [if_neg (by rw [hpend curr heq']; exact fun hc => hc rfl)]
    exact ⟨rfl, rfl, rfl, rfl, alGet_set_self _ _ _⟩
  · exact ⟨rfl, rfl, rfl, rfl, alGet_set_self _ _ _⟩

/-- C10 witness: the dedup entry for `p9` is unexpired; the second request has
a different body (a presentation and a constraint) and is still only
attached. -/
theorem verify_dedup_coalesces_witness :
    (verifyStep 1 (some (jobj [("vp", .num 1)])) (some "p9") (some "L9") 7 true (.ok ())
      { verifySeen := [("p9", 5000)],
        vlei := [("p9", { status := .pending, ts := 0 })] }).forwarded = false ∧
    (verifyStep 1 (some (jobj [("vp", .num 1)])) (some "p9") (some "L9") 7 true (.ok ())
      { verifySeen := [("p9", 5000)],
        vlei := [("p9", { status := .pending, ts := 0 })] }).st.vlei
      = [("p9", { status := .pending, ts := 0 })] := by
  have h := verify_dedup_coalesces
    { verifySeen := [("p9", 5000)], vlei := [("p9", { status := .pending, ts := 0 })] }
    1 (some (jobj [("vp", .num 1)])) "p9" (some "L9") 7 true (.ok ())
    (by decide) (by decide)
    (by intro curr hc
        have hc' : some ({ status := .pending, ts := 0 } : Rec) = some curr := hc
        cases hc'
        rfl)
  exact ⟨h.1, h.2.2.1⟩

/- ================= C8 ================= -/

theorem flushFold_append (f : Waiter → Resp) (l1 l2 : List Waiter) (st : VState) :
    flushFold f (l1 ++ l2) st = flushFold f l2 (flushFold f l1 st) := by
  simp [flushFold, List.foldl_append]

/-- C8 counterexample: for `p8` a terminal (verified) record is stored and the
dedup window has expired; a new verify request is NOT resolved synchronously —
nothing is sent to its sink, no synchronous response is returned, and the
terminal record is even reset to pending. -/
theorem verify_terminal_not_sync_cx :
    (verifyStep 4 none (some "p8") none 7 false (.ok ())
      { vlei := [("p8", { status := .verified, lei := some "L", ts := 0 })] }).resp = none ∧
    alGet (verifyStep 4 none (some "p8") none 7 false (.ok ())
      { vlei := [("p8", { status := .verified, lei := some "L", ts := 0 })] }).st.sent 7
      = none ∧
    alGet (verifyStep 4 none (some "p8") none 7 false (.ok ())
      { vlei := [("p8", { status := .verified, lei := some "L", ts := 0 })] }).st.vlei "p8"
      = some { status := .pending, ts := 4, raw := some (jobj [("note", .str "verify-wait")]) } :=
  ⟨rfl, rfl, rfl⟩

/-- C8 (amended): only a verify request that arrives inside the dedup window
(and therefore attaches as a waiter) is resolved synchronously from an
already-terminal stored record: the handler returns no synchronous response,
but the flush inside `addWaiter` immediately answers the new waiter's sink
with the stored terminal record, and the stored record is unchanged.  (A
verify request outside the dedup window instead resets the record to pending
and parks, as the counterexample shows.) -/
theorem verify_dedup_terminal_sync
    (st : VState) (now : Nat) (presentation : Option J) (p : String) (r : Nat)
    (apixOn : Bool) (submitRes : Except String Unit) (s : Rec)
    (hp : ¬p = "")
    (hseen : (alGet st.verifySeen (trimStr p)).getD 0 > now)
    (hrec : alGet st.vlei (trimStr p) = some s)
    (hterm : s.status ≠ .pending)
    (h0 : alGet st.sent r = none)
    (hres : ∀ w ∈ (alGet st.waiters (trimStr p)).getD [], w.res ≠ r) :
    (verifyStep now presentation (some p) none r apixOn submitRes st).resp = none ∧
    alGet (verifyStep now presentation (some p) none r apixOn submitRes st).st.sent r
      = some (flushResp now (trimStr p) s (mkWaiter now r .verify none)) ∧
    jGet (flushBody now (trimStr p) s (mkWaiter now r .verify none)) "status"
      = some (.str (statusStr s.status)) ∧
    (verifyStep now presentation (some p) none r apixOn submitRes st).st.vlei = st.vlei := by
  unfold verifyStep
  dsimp only
  rw [if_neg hp, if_pos hseen, addWaiter_terminal now r .verify none hrec hterm]
  set stW : VState := { st with waiters := alSet st.waiters (trimStr p) ((alGet st.waiters (trimStr p)).getD [] ++ [mkWaiter now r .verify none]) } with hW
  have hw : alGet stW.waiters (trimStr p)
      = some ((alGet st.waiters (trimStr p)).getD [] ++ [mkWaiter now r .verify none]) := by
    rw [hW]; exact alGet_set_self _ _ _
  have hne : (alGet st.waiters (trimStr p)).getD [] ++ [mkWaiter now r .verify none] ≠ [] := by
    simp
  have hfeq := flushWaiters_eq now s hw hne
  set stE : VState := { stW with waiters := alErase stW.waiters (trimStr p) } with hEd
  have hsE : alGet stE.sent r = none := h0
  have hu := flushFold_untouched (flushResp now (trimStr p) s)
    ((alGet st.waiters (trimStr p)).getD []) stE hres
  have hsent : alGet (flushWaiters now (trimStr p) s stW).sent r
      = some (flushResp now (trimStr p) s (mkWaiter now r .verify none)) := by
    rw [hfeq, flushFold_append, flushFold_cons, flushFold_nil]
    dsimp only [mkWaiter]
    rw [safeJson_send _ (hu.1.trans hsE)]
    exact alGet_cons_self _ _ _
  have hdrain : alGet (flushWaiters now (trimStr p) s stW).waiters (trimStr p) = none :=
    flushWaiters_drained now s hw hne
  have hvlei : (flushWaiters now (trimStr p) s stW).vlei = st.vlei := by
    rw [flushWaiters_vlei, hW]
  -- the post-addWaiter re-check flushes nothing: the registry entry is drained
  split
  · rename_i curr heq
    split
    · rw [flushWaiters_of_none now curr hdrain]
      exact ⟨rfl, hsent, by rw [jGet_flushBody_status,
        flushRec_no_constraint (show (mkWaiter now r .verify none).expectedLEI = none from rfl)],
        hvlei⟩
    · exact ⟨rfl, hsent, by rw [jGet_flushBody_status,
        flushRec_no_constraint (show (mkWaiter now r .verify none).expectedLEI = none from rfl)],
        hvlei⟩
  · exact ⟨rfl, hsent, by rw [jGet_flushBody_status,
      flushRec_no_constraint (show (mkWaiter now r .verify none).expectedLEI = none from rfl)],
      hvlei⟩

/-- C8 witness: a terminal verified record for `p6` inside the dedup window;
the attaching request is answered synchronously from it. -/
theorem verify_dedup_terminal_sync_witness :
    alGet (verifyStep 1 none (some "p6") none 7 false (.ok ())
      { vlei := [("p6", { status := .verified, lei := some "L", ts := 0 })],
        verifySeen := [("p6", 5000)] }).st.sent 7
      = some (flushResp 1 "p6" { status := .verified, lei := some "L", ts := 0 }
          (mkWaiter 1 7 .verify none)) := by
  have h := verify_dedup_terminal_sync
    { vlei := [("p6", { status := .verified, lei := some "L", ts := 0 })],
      verifySeen := [("p6", 5000)] }
    1 none "p6" 7 false (.ok ()) { status := .verified, lei := some "L", ts := 0 }
    (by decide) (by decide) rfl (by decide) rfl (by intro w hw; cases hw)
  exact h.2.1

/- ================= C9 ================= -/

/-- C9: when the upstream submission fails synchronously, the verify handler
removes exactly the waiter it had just registered (every waiter previously
registered for the same id remains, waiters of other ids are untouched),
returns an immediate 502 error to that one caller, and leaves no waiter for
that caller's sink in the registry. -/
theorem verify_submit_error_teardown
    (st : VState) (now : Nat) (pr : J) (p : String) (expectedLEI : Option String)
    (r : Nat) (d : String)
    (hp : ¬p = "")
    (hseen : ¬(alGet st.verifySeen (trimStr p)).getD 0 > now)
    (hres : ∀ w ∈ (alGet st.waiters (trimStr p)).getD [], w.res ≠ r) :
    (verifyStep now (some pr) (some p) expectedLEI r true (.error d) st).resp
      = some { code := 502, body := .jsonB (jobj
          [("error", .str "apix_submit_error"), ("detail", .str d)]) } ∧
    (alGet (verifyStep now (some pr) (some p) expectedLEI r true (.error d) st).st.waiters
        (trimStr p)).getD []
      = (alGet st.waiters (trimStr p)).getD [] ∧
    (∀ w ∈ (alGet (verifyStep now (some pr) (some p) expectedLEI r true
        (.error d) st).st.waiters (trimStr p)).getD [], w.res ≠ r) ∧
    (∀ id2, id2 ≠ trimStr p →
      alGet (verifyStep now (some pr) (some p) expectedLEI r true (.error d) st).st.waiters id2
        = alGet st.waiters id2) := by
  unfold verifyStep
  dsimp only
  rw [if_neg hp, if_neg hseen]
  set stSeen : VState := { st with verifySeen := alSet st.verifySeen (trimStr p) (now + IDEM_TTL_MS) } with hSe
  set st1 : VState := { stSeen with vlei := alSet stSeen.vlei (trimStr p) { status := .pending, ts := now, raw := some (jobj [("note", .str (if (some pr : Option J).isSome then "verify+submit" else "verify-wait"))]) } } with h1
  have hpend : ∀ curr, alGet st1.vlei (trimStr p) = some curr → curr.status = .pending := by
    intro curr hc
    have h2 : some ({ status := .pending, ts := now, raw := some (jobj [("note", .str (if (some pr : Option J).isSome then "verify+submit" else "verify-wait"))]) } : Rec) = some curr :=
      (alGet_set_self stSeen.vlei (trimStr p) _).symm.trans hc
    cases h2
    rfl
  rw [if_pos (show ((some pr : Option J).isSome && true) = true from rfl)]
  rw [addWaiter_pending now r .verify expectedLEI hpend]
  dsimp only
  rw [alGet_set_self, Option.getD_some]
  have hres1 : ∀ w ∈ (alGet st1.waiters (trimStr p)).getD [], w.res ≠ r := hres
  have hfil : ((alGet st1.waiters (trimStr p)).getD []
        ++ [mkWaiter now r .verify expectedLEI]).filter (fun x => x.res ≠ r)
      = (alGet st1.waiters (trimStr p)).getD [] := by
    rw [List.filter_append]
    have ha : ((alGet st1.waiters (trimStr p)).getD []).filter (fun x => x.res ≠ r)
        = (alGet st1.waiters (trimStr p)).getD [] :=
      List.filter_eq_self.mpr (fun w' hw' => decide_eq_true (hres1 w' hw'))
    have hb : ([mkWaiter now r .verify expectedLEI] : List Waiter).filter
        (fun x => x.res ≠ r) = [] := by
      simp [mkWaiter]
    rw [ha, hb, List.append_nil]
  rw [hfil]
  by_cases hE : ((alGet st1.waiters (trimStr p)).getD []).isEmpty
  · rw [if_pos hE]
    have hnil : (alGet st1.waiters (trimStr p)).getD [] = [] := by
      rcases hL : (alGet st1.waiters (trimStr p)).getD [] with _ | ⟨a, L⟩
      · rfl
      · rw [hL] at hE; cases hE
    refine ⟨rfl, ?_, ?_, ?_⟩
    · dsimp only
      rw [alGet_erase_self]
      exact (hnil.trans rfl).symm
    · intro w hw
      dsimp only at hw
      rw [alGet_erase_self] at hw
      cases hw
    · intro id2 hid2
      dsimp only
      rw [alGet_erase_ne _ hid2, alGet_set_ne _ _ hid2]
  · rw [if_neg hE]
    refine ⟨rfl, ?_, ?_, ?_⟩
    · dsimp only
      rw [alGet_set_self, Option.getD_some]
    · intro w hw
      dsimp only at hw
      rw [alGet_set_self, Option.getD_some] at hw
      exact hres1 w hw
    · intro id2 hid2
      dsimp only
      rw [alGet_set_ne _ _ hid2, alGet_set_ne _ _ hid2]

/-- C9 witness: existing waiter 9 for `p7` stays; the failing request's own
waiter (sink 7) is removed and it alone receives the 502. -/
theorem verify_submit_error_teardown_witness :
    (verifyStep 4 (some (jobj [("vp", .num 1)])) (some "p7") none 7 true (.error "boom")
      { waiters := [("p7", [⟨9, 0, .verify, none⟩])] }).resp
      = some { code := 502, body := .jsonB (jobj
          [("error", .str "apix_submit_error"), ("detail", .str "boom")]) } ∧
    (alGet (verifyStep 4 (some (jobj [("vp", .num 1)])) (some "p7") none 7 true (.error "boom")
      { waiters := [("p7", [⟨9, 0, .verify, none⟩])] }).st.waiters "p7").getD []
      = [⟨9, 0, .verify, none⟩] := by
  have h := verify_submit_error_teardown
    { waiters := [("p7", [⟨9, 0, .verify, none⟩])] } 4 (jobj [("vp", .num 1)]) "p7" none 7
    "boom" (by decide) (by decide)
    (by intro w hw
        have hw' : w ∈ [(⟨9, 0, .verify, none⟩ : Waiter)] := hw
        rw [List.mem_singleton.mp hw']
        decide)
  exact ⟨h.1, h.2.1.trans rfl⟩

/- ================= C1 ================= -/

/-- C1 counterexample: `p1` holds a terminal verified record; a further
webhook for `p1` whose payload differs from the first delivery (here:
`valid: false`) is processed rather than treated as redundant — it overwrites
the stored terminal record, flipping its status from verified to rejected. -/
theorem webhook_overwrites_terminal_cx :
    alGet (webhookStep 1 (jobj [("presentationId", .str "p1"), ("valid", .bool false)])
      { vlei := [("p1", { status := .verified, lei := some "LEI1", ts := 0 })] }).1.vlei "p1"
      = some { status := .rejected, ts := 1 } ∧
    ({ status := .rejected, ts := 1 } : Rec).status
      ≠ ({ status := .verified, lei := some "LEI1", ts := 0 } : Rec).status :=
  ⟨rfl, by decide⟩

/-- C1 (amended): a further webhook for an id with a terminal record leaves
the stored record (indeed the whole store) unchanged only when its payload is
byte-identical to a delivery still in the idempotency cache: the cache-hit
path replays the cached acknowledgement and performs no writes.  A webhook
with a different payload, or after the cache TTL, overwrites the terminal
record (as the counterexample shows). -/
theorem webhook_cached_replay_no_overwrite
    (st : VState) (body : J) (now : Nat) (c : CacheEntry)
    (hcached : alGet st.__postCache (hashReq "POST" "/vlei/apix/webhook" body) = some c)
    (ht : c.exp > now) :
    (webhookStep now body st).1 = st ∧
    (webhookStep now body st).2 = { code := 200, body := .rawB c.bodyStr, idemKey := some (hashReq "POST" "/vlei/apix/webhook" body) } := by
  unfold webhookStep
  dsimp only
  rw [hcached]
  dsimp only
  rw [if_pos ht]
  exact ⟨rfl, rfl⟩

/-- C1 witness: a state whose webhook cache holds an unexpired entry for the
delivered payload. -/
theorem webhook_cached_replay_no_overwrite_witness :
    (webhookStep 1 (jobj [])
      { __postCache := [(hashReq "POST" "/vlei/apix/webhook" (jobj []), ⟨"cached", 5⟩)] }).1
      = { __postCache := [(hashReq "POST" "/vlei/apix/webhook" (jobj []), ⟨"cached", 5⟩)] } :=
  (webhook_cached_replay_no_overwrite
    { __postCache := [(hashReq "POST" "/vlei/apix/webhook" (jobj []), ⟨"cached", 5⟩)] }
    (jobj []) 1 ⟨"cached", 5⟩ (alGet_cons_self _ _ _) (by decide)).1

/- ================= C4 ================= -/

/-- Shape of one leader run of the webhook handler (no cached entry, no
lock, truthy presentationId): store the record, flush, cache the
acknowledgement bytes, release the lock, answer 200. -/
theorem webhookStep_leader_ok (st : VState) (body : J) (now : Nat)
    (hc : st.__postCache = []) (hl : st.__postLocks = [])
    (hp : jTruthy (jGet body "presentationId") = true) :
    webhookStep now body st =
      (let key := hashReq "POST" "/vlei/apix/webhook" body
       let id := trimStr (jsString ((jGet body "presentationId").getD .null))
       let record : Rec := { status := if jTruthy (jGet body "valid") then .verified else .rejected, lei := jGetStr body "lei", validTo := jGetStr body "validTo", raw := jGet body "raw", ts := now }
       let stF := flushWaiters now id record { st with __postLocks := alSet st.__postLocks key (now + IDEM_TTL_MS), vlei := alSet st.vlei id record }
       ({ stF with __postCache := alSet stF.__postCache key ⟨"\x7b\"ok\":true\x7d", now + IDEM_TTL_MS⟩, __postLocks := alErase stF.__postLocks key },
        { code := 200, body := .rawB "\x7b\"ok\":true\x7d", idemKey := some key })) := by
  unfold webhookStep webhookAfterCache
  dsimp only
  rw [hc, alGet_nil]
  dsimp only
  rw [hl, alGet_nil]
  rw [show (none : Option Nat).getD 0 = 0 from rfl]
  rw [if_neg (Nat.not_lt_zero now)]
  rw [hp]
  rw [if_pos (show (true = true) from rfl)]

/-- C4: a webhook delivered twice with a byte-identical payload within the
idempotency TTL: the second delivery returns the byte-identical
acknowledgement and performs no state writes at all — the store after the
second delivery is exactly the store after the first (record not rewritten,
flush not re-run, caches unchanged). -/
theorem webhook_duplicate_idempotent
    (st0 : VState) (body : J) (now now2 : Nat)
    (hc : st0.__postCache = []) (hl : st0.__postLocks = [])
    (hp : jTruthy (jGet body "presentationId") = true)
    (ht : now2 < now + IDEM_TTL_MS) :
    (webhookStep now2 body (webhookStep now body st0).1).1 = (webhookStep now body st0).1 ∧
    (webhookStep now2 body (webhookStep now body st0).1).2 = (webhookStep now body st0).2 ∧
    (webhookStep now body st0).2 = { code := 200, body := .rawB "\x7b\"ok\":true\x7d", idemKey := some (hashReq "POST" "/vlei/apix/webhook" body) } := by
  have h1 := webhookStep_leader_ok st0 body now hc hl hp
  have f1 : alGet (webhookStep now body st0).1.__postCache
      (hashReq "POST" "/vlei/apix/webhook" body)
      = some ⟨"\x7b\"ok\":true\x7d", now + IDEM_TTL_MS⟩ := by
    rw [h1]
    exact alGet_set_self _ _ _
  have fr : (webhookStep now body st0).2 = { code := 200, body := .rawB "\x7b\"ok\":true\x7d", idemKey := some (hashReq "POST" "/vlei/apix/webhook" body) } := by
    rw [h1]
  have h2 := webhook_cached_replay_no_overwrite (webhookStep now body st0).1 body now2
    ⟨"\x7b\"ok\":true\x7d", now + IDEM_TTL_MS⟩ f1 ht
  refine ⟨h2.1, ?_, fr⟩
  rw [h2.2, fr]

/-- C4 witness: the webhook for `p1` delivered twice at times 1 and 2. -/
theorem webhook_duplicate_idempotent_witness :
    (webhookStep 2 (jobj [("presentationId", .str "p1"), ("valid", .bool true)])
        (webhookStep 1 (jobj [("presentationId", .str "p1"), ("valid", .bool true)]) {}).1).1
      = (webhookStep 1 (jobj [("presentationId", .str "p1"), ("valid", .bool true)]) {}).1 ∧
    (webhookStep 2 (jobj [("presentationId", .str "p1"), ("valid", .bool true)])
        (webhookStep 1 (jobj [("presentationId", .str "p1"), ("valid", .bool true)]) {}).1).2
      = (webhookStep 1 (jobj [("presentationId", .str "p1"), ("valid", .bool true)]) {}).2 := by
  have h := webhook_duplicate_idempotent {}
    (jobj [("presentationId", .str "p1"), ("valid", .bool true)]) 1 2 rfl rfl rfl
    (by decide)
  exact ⟨h.1, h.2.1⟩

/- ================= C6 ================= -/

/-- Shape of the leader path of `idemLeaderOrWait` when the lock is free. -/
theorem idemLeaderOrWait_free (now : Nat) (key cacheKey : String) (compute : Except String J)
    (st : IdemState) (hlock : ¬(alGet st.__idemLocks cacheKey).getD 0 > now) :
    idemLeaderOrWait now key cacheKey compute st =
      (match compute with
       | .ok obj => ({ st with __idemCache := alSet st.__idemCache cacheKey ⟨stableStringify obj, now + __IDEM_CACHE_TTL_MS⟩, __idemLocks := alErase (alSet st.__idemLocks cacheKey (now + __IDEM_LOCK_TTL_MS)) cacheKey }, { code := 200, body := .rawB (stableStringify obj), idemKey := some key })
       | .error e => ({ st with __idemLocks := alErase (alSet st.__idemLocks cacheKey (now + __IDEM_LOCK_TTL_MS)) cacheKey }, { code := 500, body := .jsonB (jobj [("error", .str "compute_failed"), ("message", .str e)]), idemKey := none })) := by
  unfold idemLeaderOrWait
  rw [if_neg hlock]
  rcases compute with obj | e <;> rfl

/-- C6: a leader releases its per-fingerprint lock on every exit path.  For
the iso20022 `__idemWrap`: whenever the leader path is taken (no fresh cache
entry, lock free), the lock entry is gone from the lock table when the
handler returns, whatever `computeOnce` did; and when `computeOnce` threw,
the idempotency cache holds no entry for the fingerprint (so a later
identical request can become leader and retry) and the caller gets the 500.
For the vlei webhook handler: the handled-error exit (missing
presentationId) likewise deletes the lock, leaves the cache unpopulated and
returns 400. -/
theorem leader_releases_lock :
    (∀ (now : Nat) (method path : String) (body : J) (compute : Except String J)
        (st : IdemState),
      (∀ c, alGet st.__idemCache ("idem:" ++ __hashKey method path body) = some c →
        c.exp ≤ now) →
      (alGet st.__idemLocks ("idem:" ++ __hashKey method path body)).getD 0 ≤ now →
      alGet (__idemWrap now method path body compute st).1.__idemLocks
          ("idem:" ++ __hashKey method path body) = none ∧
      (∀ e, compute = .error e →
        alGet (__idemWrap now method path body compute st).1.__idemCache
            ("idem:" ++ __hashKey method path body) = none ∧
        (__idemWrap now method path body compute st).2.code = 500)) ∧
    (∀ (now : Nat) (body : J) (st : VState),
      st.__postCache = [] → st.__postLocks = [] →
      jTruthy (jGet body "presentationId") = false →
      alGet (webhookStep now body st).1.__postLocks
          (hashReq "POST" "/vlei/apix/webhook" body) = none ∧
      alGet (webhookStep now body st).1.__postCache
          (hashReq "POST" "/vlei/apix/webhook" body) = none ∧
      (webhookStep now body st).2.code = 400) := by
  constructor
  · intro now method path body compute st hstale hfree
    unfold __idemWrap
    dsimp only
    generalize hK : __hashKey method path body = K at hstale hfree ⊢
    have hlock : ¬(alGet st.__idemLocks ("idem:" ++ K)).getD 0 > now :=
      Nat.not_lt.mpr hfree
    rcases hco : alGet st.__idemCache ("idem:" ++ K) with _ | hit
    · rw [idemLeaderOrWait_free _ _ _ _ _ hlock]
      rcases compute with e | obj
      · refine ⟨alGet_erase_self _ _, ?_⟩
        intro e' he
        cases he
        exact ⟨hco, rfl⟩
      · exact ⟨alGet_erase_self _ _, fun e he => Except.noConfusion he⟩
    · have hexp : ¬hit.exp > now := Nat.not_lt.mpr (hstale hit hco)
      dsimp only
      rw [if_neg hexp]
      have hlock2 : ¬(alGet ({ st with __idemCache := alErase st.__idemCache ("idem:" ++ K) } : IdemState).__idemLocks ("idem:" ++ K)).getD 0 > now := hlock
      rw [idemLeaderOrWait_free _ _ _ _ _ hlock2]
      rcases compute with e | obj
      · refine ⟨alGet_erase_self _ _, ?_⟩
        intro e' he
        cases he
        exact ⟨alGet_erase_self _ _, rfl⟩
      · exact ⟨alGet_erase_self _ _, fun e he => Except.noConfusion he⟩
  · intro now body st hc hl hp
    unfold webhookStep webhookAfterCache
    dsimp only
    generalize hK : hashReq "POST" "/vlei/apix/webhook" body = K
    rw [hc, alGet_nil]
    dsimp only
    rw [hl, alGet_nil]
    rw [show (none : Option Nat).getD 0 = 0 from rfl]
    rw [if_neg (Nat.not_lt_zero now)]
    rw [hp]
    rw [if_neg (show ¬(false = true) from by decide)]
    exact ⟨alGet_erase_self _ _, alGet_nil _, rfl⟩

/-- C6 witness: a throwing `computeOnce` on an empty store releases the lock,
caches nothing and returns 500; a webhook without presentationId releases the
lock and returns 400. -/
theorem leader_releases_lock_witness :
    (alGet (__idemWrap 1 "POST" "/x" (jobj []) (.error "E") {}).1.__idemLocks
        ("idem:" ++ __hashKey "POST" "/x" (jobj [])) = none ∧
      alGet (__idemWrap 1 "POST" "/x" (jobj []) (.error "E") {}).1.__idemCache
        ("idem:" ++ __hashKey "POST" "/x" (jobj [])) = none ∧
      (__idemWrap 1 "POST" "/x" (jobj []) (.error "E") {}).2.code = 500) ∧
    ((webhookStep 1 (jobj []) {}).2.code = 400 ∧
      alGet (webhookStep 1 (jobj []) {}).1.__postLocks
        (hashReq "POST" "/vlei/apix/webhook" (jobj [])) = none) := by
  have h1 := leader_releases_lock.1 1 "POST" "/x" (jobj []) (.error "E") {}
    (fun c hcx => Option.noConfusion hcx) (Nat.zero_le 1)
  have h2 := leader_releases_lock.2 1 (jobj []) {} rfl rfl rfl
  exact ⟨⟨h1.1, (h1.2 "E" rfl).1, (h1.2 "E" rfl).2⟩, ⟨h2.2.2, h2.1⟩⟩

/- ================= C5: order lemmas ================= -/

theorem char_eq_of_toNat_eq {a b : Char} (h : a.toNat = b.toNat) : a = b :=
  Char.eq_of_val_eq (UInt32.eq_of_val_eq (Fin.ext h))

theorem string_eq_of_data_eq {a b : String} (h : a.data = b.data) : a = b := by
  cases a; cases b; exact congrArg String.mk h

theorem charListLe_total : ∀ as bs : List Char,
    charListLe as bs = true ∨ charListLe bs as = true := by
  intro as
  induction as with
  | nil => intro bs; exact Or.inl rfl
  | cons a as ih =>
    intro bs
    cases bs with
    | nil => exact Or.inr rfl
    | cons b bs =>
      by_cases h1 : a.toNat < b.toNat
      · exact Or.inl (by simp [charListLe, h1])
      · by_cases h2 : b.toNat < a.toNat
        · exact Or.inr (by simp [charListLe, h2, h1])
        · rcases ih bs with h | h
          · exact Or.inl (by simp [charListLe, h1, h2, h])
          · exact Or.inr (by simp [charListLe, h1, h2, h])

theorem charListLe_antisymm : ∀ as bs : List Char,
    charListLe as bs = true → charListLe bs as = true → as = bs := by
  intro as
  induction as with
  | nil =>
    intro bs h1 h2
    cases bs with
    | nil => rfl
    | cons b bs => cases h2
  | cons a as ih =>
    intro bs h1 h2
    cases bs with
    | nil => cases h1
    | cons b bs =>
      by_cases hab : a.toNat < b.toNat
      · simp [charListLe, hab, Nat.lt_asymm hab, Nat.ne_of_lt hab] at h2
      · by_cases hba : b.toNat < a.toNat
        · simp [charListLe, hab, hba] at h1
        · have he : a = b := char_eq_of_toNat_eq (by omega)
          subst he
          simp only [charListLe, hab, if_neg hab] at h1 h2
          rw [ih bs h1 h2]

theorem charListLe_trans : ∀ as bs cs : List Char,
    charListLe as bs = true → charListLe bs cs = true → charListLe as cs = true := by
  intro as
  induction as with
  | nil => intro bs cs h1 h2; rfl
  | cons a as ih =>
    intro bs cs h1 h2
    cases bs with
    | nil => cases h1
    | cons b bs =>
      cases cs with
      | nil => cases h2
      | cons c cs =>
        by_cases hab : a.toNat < b.toNat
        · by_cases hbc : b.toNat < c.toNat
          · simp [charListLe, show a.toNat < c.toNat by omega]
          · by_cases hcb : c.toNat < b.toNat
            · simp [charListLe, hbc, hcb] at h2
            · have : b.toNat = c.toNat := by omega
              simp [charListLe, show a.toNat < c.toNat by omega]
        · by_cases hba : b.toNat < a.toNat
          · simp [charListLe, hab, hba] at h1
          · have heq : a = b := char_eq_of_toNat_eq (by omega)
            subst heq
            simp only [charListLe, hab, if_neg hab] at h1
            by_cases hac : a.toNat < c.toNat
            · simp [charListLe, hac]
            · by_cases hca : c.toNat < a.toNat
              · simp [charListLe, hac, hca] at h2
              · simp only [charListLe, hac, if_neg hac, if_neg hca] at h2 ⊢
                exact ih bs cs h1 h2

theorem strLeB_total (a b : String) : strLeB a b = true ∨ strLeB b a = true :=
  charListLe_total a.data b.data

theorem strLeB_antisymm {a b : String} (h1 : strLeB a b = true) (h2 : strLeB b a = true) :
    a = b :=
  string_eq_of_data_eq (charListLe_antisymm a.data b.data h1 h2)

theorem strLeB_trans {a b c : String} (h1 : strLeB a b = true) (h2 : strLeB b c = true) :
    strLeB a c = true :=
  charListLe_trans a.data b.data c.data h1 h2

/-- The key order on serialized entries. -/
def pairLe (a b : String × String) : Prop := strLeB a.1 b.1 = true

theorem insertPair_perm (p : String × String) (L : List (String × String)) :
    (insertPair p L).Perm (p :: L) := by
  induction L with
  | nil => exact List.Perm.refl _
  | cons q rest ih =>
    by_cases h : strLeB p.1 q.1
    · simp only [insertPair, if_pos h]
      exact List.Perm.refl _
    · simp only [insertPair, if_neg h]
      exact (ih.cons q).trans (List.Perm.swap p q rest)

theorem sortPairs_perm (L : List (String × String)) : (sortPairs L).Perm L := by
  induction L with
  | nil => exact List.Perm.refl _
  | cons p rest ih =>
    exact (insertPair_perm p (sortPairs rest)).trans (ih.cons p)

theorem insertPair_sorted (p : String × String) (L : List (String × String))
    (h : L.Pairwise pairLe) : (insertPair p L).Pairwise pairLe := by
  induction L with
  | nil => exact List.pairwise_singleton _ _
  | cons q rest ih =>
    rcases List.pairwise_cons.mp h with ⟨hq, hrest⟩
    by_cases hle : strLeB p.1 q.1
    · simp only [insertPair, if_pos hle]
      refine List.pairwise_cons.mpr ⟨?_, h⟩
      intro b hb
      rcases List.mem_cons.mp hb with h1 | h1
      · rw [h1]; exact hle
      · exact strLeB_trans hle (hq b h1)
    · simp only [insertPair, if_neg hle]
      refine List.pairwise_cons.mpr ⟨?_, ih hrest⟩
      intro b hb
      have hb' : b ∈ p :: rest := (insertPair_perm p rest).mem_iff.mp hb
      rcases List.mem_cons.mp hb' with h1 | h1
      · rw [h1]
        rcases strLeB_total q.1 p.1 with h | h
        · exact h
        · exact absurd h hle
      · exact hq b h1

theorem sortPairs_sorted (L : List (String × String)) : (sortPairs L).Pairwise pairLe := by
  induction L with
  | nil => exact List.Pairwise.nil
  | cons p rest ih => exact insertPair_sorted p (sortPairs rest) ih

theorem sorted_perm_nodup_eq : ∀ {P Q : List (String × String)}, P.Perm Q →
    P.Pairwise pairLe → Q.Pairwise pairLe → (P.map Prod.fst).Nodup → P = Q := by
  intro P
  induction P with
  | nil =>
    intro Q hperm _ _ _
    exact (hperm.symm.eq_nil).symm
  | cons a P ih =>
    intro Q hperm hP hQ hnd
    cases Q with
    | nil => cases hperm.eq_nil
    | cons b Q =>
      rcases List.pairwise_cons.mp hP with ⟨haP, hP'⟩
      rcases List.pairwise_cons.mp hQ with ⟨hbQ, hQ'⟩
      by_cases hab : a = b
      · subst hab
        have := ih (hperm.cons_inv) hP' hQ'
          ((List.nodup_cons.mp hnd).2)
        rw [this]
      · have haQ : a ∈ b :: Q := hperm.mem_iff.mp (List.mem_cons_self a P)
        have hbP : b ∈ a :: P := hperm.mem_iff.mpr (List.mem_cons_self b Q)
        have haQ' : a ∈ Q := by
          rcases List.mem_cons.mp haQ with h | h
          · exact absurd h hab
          · exact h
        have hbP' : b ∈ P := by
          rcases List.mem_cons.mp hbP with h | h
          · exact absurd h.symm hab
          · exact h
        have h1 : pairLe b a := hbQ a haQ'
        have h2 : pairLe a b := haP b hbP'
        have hfst : a.1 = b.1 := strLeB_antisymm h2 h1
        exfalso
        have : a.1 ∈ P.map Prod.fst := by
          rw [hfst]
          exact List.mem_map_of_mem Prod.fst hbP'
        exact (List.nodup_cons.mp hnd).1 this

/-- Key-sorting serialized entries is invariant under permuting the input,
when the keys are duplicate-free. -/
theorem sortPairs_congr {P Q : List (String × String)} (hperm : P.Perm Q)
    (hnd : (P.map Prod.fst).Nodup) : sortPairs P = sortPairs Q :=
  sorted_perm_nodup_eq
    ((sortPairs_perm P).trans (hperm.trans (sortPairs_perm Q).symm))
    (sortPairs_sorted P) (sortPairs_sorted Q)
    (((sortPairs_perm P).map Prod.fst).nodup_iff.mpr hnd)

/- ================= C5: entries lemmas ================= -/

theorem andE {a b : Bool} (h : (a && b) = true) : a = true ∧ b = true := by
  rw [Bool.and_eq_true] at h; exact h

/-- Induction over `JEntries` alone (the mutual recursor specialised with
trivial motives on `J` and `JList`). -/
theorem entries_ind (P : JEntries → Prop) (h0 : P .nil)
    (h1 : ∀ k v tl, P tl → P (.cons k v tl)) : ∀ es, P es :=
  fun es =>
    @JEntries.rec (fun _ => True) (fun _ => True) P
      trivial (fun _ => trivial) (fun _ => trivial) (fun _ => trivial)
      (fun _ _ => trivial) (fun _ _ => trivial)
      trivial (fun _ _ _ _ => trivial)
      h0 (fun k v tl _ ih => h1 k v tl ih) es

def keysE : JEntries → List String
  | .nil => []
  | .cons k _ tl => k :: keysE tl

def toListJ : JList → List J
  | .nil => []
  | .cons x xs => x :: toListJ xs

theorem map_fst_ssEntries : ∀ es : JEntries, (ssEntries es).map Prod.fst = keysE es :=
  entries_ind _ rfl (fun k v tl ih => by simp [ssEntries, keysE, ih])

theorem ssEntries_insertEntry (k : String) (v : J) : ∀ fs : JEntries,
    (ssEntries (insertEntry k v fs)).Perm ((k, stableStringify v) :: ssEntries fs) :=
  entries_ind _ (List.Perm.refl _)
    (fun k2 v2 tl ih => by
      by_cases h : strLeB k k2
      · simp only [insertEntry, if_pos h]
        exact List.Perm.refl _
      · simp only [insertEntry, if_neg h, ssEntries]
        exact (ih.cons _).trans (List.Perm.swap _ _ _))

theorem ssEntries_sortEntries : ∀ fs : JEntries,
    (ssEntries (sortEntries fs)).Perm (ssEntries fs) :=
  entries_ind _ (List.Perm.refl _)
    (fun k v tl ih => (ssEntries_insertEntry k v (sortEntries tl)).trans (ih.cons _))

theorem keysE_canonE : ∀ es : JEntries, keysE (canonE es) = keysE es :=
  entries_ind _ rfl (fun k v tl ih => by simp [canonE, keysE, ih])

theorem keyNotIn_not_mem (k : String) : ∀ es : JEntries, keyNotIn k es = true →
    k ∉ keysE es :=
  entries_ind _ (fun _ h => by cases h)
    (fun k2 v tl ih hni hmem => by
      by_cases he : k = k2
      · rw [keyNotIn, if_pos he] at hni; cases hni
      · rw [keyNotIn, if_neg he] at hni
        rcases List.mem_cons.mp hmem with h | h
        · exact he h
        · exact ih hni h)

theorem nodup_keysE_of_nodupKeys : ∀ es : JEntries, nodupKeys es = true →
    (keysE es).Nodup :=
  entries_ind _ (fun _ => List.nodup_nil)
    (fun k v tl ih hnd => by
      rcases andE hnd with ⟨h1, h2⟩
      exact List.nodup_cons.mpr ⟨keyNotIn_not_mem k tl h1, ih h2⟩)

/- ================= C5: size lemmas and main induction ================= -/

theorem jsize_pos : ∀ x : J, 1 ≤ jsize x := by
  intro x
  cases x <;> simp [jsize]

theorem canonPreserves : ∀ n : Nat,
    (∀ x : J, jsize x ≤ n → jWF x = true → stableStringify (canonJ x) = stableStringify x) ∧
    (∀ xs : JList, jsizeL xs ≤ n → jWFL xs = true → ssList (canonL xs) = ssList xs) ∧
    (∀ es : JEntries, jsizeE es ≤ n → jWFE es = true →
      ssEntries (canonE es) = ssEntries es) := by
  intro n
  induction n with
  | zero =>
    refine ⟨?_, ?_, ?_⟩
    · intro x hs _
      exact absurd hs (by have := jsize_pos x; omega)
    · intro xs hs _
      cases xs with
      | nil => rfl
      | cons x tl => exact absurd hs (by simp only [jsizeL]; omega)
    · intro es hs _
      cases es with
      | nil => rfl
      | cons k v tl => exact absurd hs (by simp only [jsizeE]; omega)
  | succ n ih =>
    refine ⟨?_, ?_, ?_⟩
    · intro x hs hwf
      cases x with
      | null => rfl
      | bool b => rfl
      | num m => rfl
      | str s => rfl
      | arr xs =>
        have h1 : jsizeL xs ≤ n := by simp only [jsize] at hs; omega
        have h2 : jWFL xs = true := hwf
        show "[" ++ ssList (canonL xs) ++ "]" = "[" ++ ssList xs ++ "]"
        rw [ih.2.1 xs h1 h2]
      | obj es =>
        have hsz : jsizeE es ≤ n := by simp only [jsize] at hs; omega
        rcases andE hwf with ⟨hnd, hwfe⟩
        have hIH : ssEntries (canonE es) = ssEntries es := ih.2.2 es hsz hwfe
        show "\x7b" ++ joinComma ((sortPairs (ssEntries (sortEntries (canonE es)))).map
            entryStr) ++ "\x7d"
          = "\x7b" ++ joinComma ((sortPairs (ssEntries es)).map entryStr) ++ "\x7d"
        have hperm : (ssEntries (sortEntries (canonE es))).Perm (ssEntries es) := by
          have h := ssEntries_sortEntries (canonE es)
          rwa [hIH] at h
        have hnd2 : ((ssEntries (sortEntries (canonE es))).map Prod.fst).Nodup := by
          have hpk : ((ssEntries (sortEntries (canonE es))).map Prod.fst).Perm
              ((ssEntries (canonE es)).map Prod.fst) :=
            (ssEntries_sortEntries (canonE es)).map Prod.fst
          rw [map_fst_ssEntries, map_fst_ssEntries, keysE_canonE] at hpk
          rw [map_fst_ssEntries]
          exact hpk.nodup_iff.mpr (nodup_keysE_of_nodupKeys es hnd)
        rw [sortPairs_congr hperm hnd2]
    · intro xs hs hwf
      cases xs with
      | nil => rfl
      | cons x tl =>
        cases tl with
        | nil =>
          have h1 : jsize x ≤ n := by simp only [jsizeL] at hs; omega
          show stableStringify (canonJ x) = stableStringify x
          exact ih.1 x h1 (andE hwf).1
        | cons y ys =>
          have h1 : jsize x ≤ n := by
            simp only [jsizeL] at hs
            have := jsize_pos y
            omega
          have h2 : jsizeL (JList.cons y ys) ≤ n := by
            simp only [jsizeL] at hs ⊢
            have := jsize_pos x
            omega
          rcases andE hwf with ⟨hw1, hw2⟩
          show stableStringify (canonJ x) ++ "," ++ ssList (canonL (JList.cons y ys))
            = stableStringify x ++ "," ++ ssList (JList.cons y ys)
          rw [ih.1 x h1 hw1, ih.2.1 (JList.cons y ys) h2 hw2]
    · intro es hs hwf
      cases es with
      | nil => rfl
      | cons k v tl =>
        have h1 : jsize v ≤ n := by
          simp only [jsizeE] at hs
          omega
        have h2 : jsizeE tl ≤ n := by
          simp only [jsizeE] at hs
          have := jsize_pos v
          omega
        rcases andE hwf with ⟨hw1, hw2⟩
        show (k, stableStringify (canonJ v)) :: ssEntries (canonE tl)
          = (k, stableStringify v) :: ssEntries tl
        rw [ih.1 v h1 hw1, ih.2.2 tl h2 hw2]

/- ================= C5: claim ================= -/

/-- SHA-256 known-answer check against the standard test vector. -/
theorem sha256Hex_abc : sha256Hex (strBytes "abc")
    = "ba7816bf8f01cfea414140de5dae2223b00361a396177a9cb410ff61f20015ad" := by decide

/-- C5: the request fingerprint is invariant under object-key permutation at
any nesting depth (two well-formed bodies with equal key-order
canonicalizations hash identically for every method and path), while array
order is significant: there is a pair of element-permuted arrays whose
fingerprints differ. -/
theorem fingerprint_key_order :
    (∀ (method path : String) (b1 b2 : J), jWF b1 = true → jWF b2 = true →
      canonJ b1 = canonJ b2 → hashReq method path b1 = hashReq method path b2) ∧
    (∃ xs ys : JList, (toListJ xs).Perm (toListJ ys) ∧
      hashReq "POST" "/vlei/apix/webhook" (.arr xs)
        ≠ hashReq "POST" "/vlei/apix/webhook" (.arr ys)) := by
  constructor
  · intro method path b1 b2 h1 h2 hc
    have e1 : stableStringify (canonJ b1) = stableStringify b1 :=
      (canonPreserves (jsize b1)).1 b1 le_rfl h1
    have e2 : stableStringify (canonJ b2) = stableStringify b2 :=
      (canonPreserves (jsize b2)).1 b2 le_rfl h2
    have hss : stableStringify b1 = stableStringify b2 := by
      rw [← e1, hc, e2]
    unfold hashReq
    rw [hss]
  · refine ⟨.cons (.num 1) (.cons (.num 2) .nil), .cons (.num 2) (.cons (.num 1) .nil),
      ?_, ?_⟩
    · exact List.Perm.swap (J.num 2) (J.num 1) []
    · decide

/-- C5 witness: two bodies differing only in key order hash identically. -/
theorem fingerprint_key_order_witness :
    hashReq "POST" "/x" (jobj [("a", .num 1), ("b", .num 2)])
      = hashReq "POST" "/x" (jobj [("b", .num 2), ("a", .num 1)]) :=
  fingerprint_key_order.1 "POST" "/x" (jobj [("a", .num 1), ("b", .num 2)])
    (jobj [("b", .num 2), ("a", .num 1)]) (by decide) (by decide) rfl
